import Mathlib

/-!
# k8s-explorer-cli: the drill-down navigation state machine

A shallow embedding of `main.go`.  The four bubbletea models of the program
(`model`, `podModel`, `containerModel`, `containerLogModel`) and their `Update`
methods are translated one to one.

Conventions of the embedding

* Go `int` is `Int`.  The only arithmetic on the cursor is `m.cursor--` under
  the guard `m.cursor > 0` and `m.cursor++` under the guard
  `m.cursor < len(m.choices)-1`, so no operation can leave the 64-bit range and
  no wrap-around has to be modelled.
* A slice is the `List` of its elements.
* The Kubernetes objects keep only the fields the program reads.
* `tea.Msg` is the sum of the message types the program names in its type
  switches, plus `other` for a message of any other type.
* `tea.KeyMsg` is represented by the value of its `String()` method, which is
  all the program looks at.
* `tea.Model` is the sum of the four model types of the program plus the `nil`
  interface value (the zero value of a `from` field).
* `tea.Cmd` is a Go closure.  A command is represented by the closure
  expression that built it together with the variables it captured;
  `Cmd.run` is the call the closure performs when the runtime executes it.
* The package variables `clientWidth` and `clientHeight` are threaded through
  `Update` as a `Globals` value.
* A Go run-time panic is an `Except.error`.
* The `viewport` package of the bubbles library is an external collaborator:
  its model type `V`, its command type `C` and its operations are parameters
  (`ViewportApi`).
-/

namespace K8sExplorer

/-! ## Kubernetes objects (`corev1`) -/

/-- The object `corev1.Namespace`; the program reads `.Name` only. -/
structure Namespace where
  Name : String
  deriving DecidableEq, Repr

/-- The object `corev1.Container`; the program reads `.Name` only. -/
structure Container where
  Name : String
  deriving DecidableEq, Repr

/-- The object `corev1.PodSpec`; the program reads the two container slices. -/
structure PodSpec where
  InitContainers : List Container
  Containers : List Container
  deriving DecidableEq, Repr

/-- The object `corev1.Pod`; the program reads `.Name` and `.Spec`. -/
structure Pod where
  Name : String
  Spec : PodSpec
  deriving DecidableEq, Repr

/-! ## Package state, messages, panics -/

/-- The package variables `clientWidth`, `clientHeight` (both start at 0). -/
structure Globals where
  clientWidth : Int
  clientHeight : Int
  deriving DecidableEq, Repr

/-- The values of the package variables when the program starts. -/
def Globals.initial : Globals := { clientWidth := 0, clientHeight := 0 }

/-- The interface `tea.Msg` as far as the program distinguishes message types. -/
inductive Msg where
  /-- The message `namespaceListMsg`, a `[]corev1.Namespace` -/
  | namespaceListMsg (items : List Namespace)
  /-- The message `podListMsg`, a `[]corev1.Pod` -/
  | podListMsg (items : List Pod)
  /-- The message `containerListMsg{containers, types}` -/
  | containerListMsg (containers : List Container) (types : List String)
  /-- The message `containerLogMsg`, a string -/
  | containerLogMsg (text : String)
  /-- The message `tea.WindowSizeMsg{Width, Height}` -/
  | WindowSizeMsg (Width Height : Int)
  /-- The message `tea.KeyMsg`, given by the result of `msg.String()` -/
  | KeyMsg (key : String)
  /-- a message of any other dynamic type -/
  | other
  deriving DecidableEq, Repr

/-- The run-time panics the transitions can raise. -/
inductive Panic where
  /-- The panic `index out of range [index] with length len` -/
  | indexOutOfRange (index : Int) (len : Nat)
  /-- a method call on the `nil` interface value -/
  | nilModel
  deriving DecidableEq, Repr

/-- The Go index expression `xs[i]` on a slice, with a signed index. -/
def index {α : Type} (xs : List α) (i : Int) : Except Panic α :=
  if 0 ≤ i then
    match xs[i.toNat]? with
    | some x => .ok x
    | none => .error (.indexOutOfRange i xs.length)
  else .error (.indexOutOfRange i xs.length)

/-! ## The model types -/

/-- Source: `type model struct` (the Collection level: namespaces). -/
structure model where
  choices : List Namespace
  cursor : Int
  populated : Bool
  deriving DecidableEq, Repr

/-- Source: `type podModel struct` without its `from` field, which is stored next to
it in `Model.podModel` (the Member level: pods of a namespace). -/
structure podModel where
  choices : List Pod
  cursor : Int
  populated : Bool
  namespace_ : String
  deriving DecidableEq, Repr

/-- Source: `type containerModel struct` without its `from` field (the SubMember
level: containers of a pod). -/
structure containerModel where
  choices : List Container
  types : List String
  cursor : Int
  populated : Bool
  pod : String
  namespace_ : String
  deriving DecidableEq, Repr

/-- Source: `type containerLogModel struct` without its `from` field (the Content
level: the log of a container). -/
structure containerLogModel (V : Type) where
  viewport : V
  ready : Bool
  deriving DecidableEq, Repr

/-- The interface `tea.Model`: one of the four model types of the program, each non-root
one paired with its `from tea.Model` field, or the `nil` interface value. -/
inductive Model (V : Type) where
  | nil
  | model (m : model)
  | podModel (m : podModel) (from_ : Model V)
  | containerModel (m : containerModel) (from_ : Model V)
  | containerLogModel (m : containerLogModel V) (from_ : Model V)
  deriving DecidableEq, Repr

/-! ## Commands -/

/-- The `tea.Cmd` values the program returns, as closure expressions with their
captured variables. -/
inductive Cmd (C : Type) where
  /-- the function value `getNamespaceList` -/
  | getNamespaceList
  /-- The command `tea.Quit` -/
  | Quit
  /-- The closure `func() tea.Msg { return getPodList(namespace) }` in `model.Update`,
  capturing the local `namespace` -/
  | podListOfName (namespace_ : String)
  /-- The closure `func() tea.Msg { return getPodList(m.namespace) }` in
  `podModel.Update`, capturing `m` -/
  | podListOfModel (m : podModel)
  /-- The closure `func() tea.Msg { return getContainerList(m.choices[m.cursor]) }`,
  capturing `m` -/
  | containerListOfModel (m : podModel)
  /-- The closure `func() tea.Msg { return getContainerLogs(m.namespace, m.pod,
  m.choices[m.cursor].Name) }`, capturing `m` -/
  | containerLogsOfModel (m : containerModel)
  /-- a command returned by `viewport.Update` -/
  | viewport (c : C)
  deriving DecidableEq, Repr

/-- The function call a command performs when the runtime executes it. -/
inductive Call (C : Type) where
  | getNamespaceList
  | Quit
  | getPodList (namespace_ : String)
  | getContainerList (pod : Pod)
  | getContainerLogs (namespace_ pod container : String)
  | viewport (c : C)
  deriving DecidableEq, Repr

/-- Executing a command: the body of the closure, up to the call it makes.
The index expressions inside the closures are evaluated here. -/
def Cmd.run {C : Type} : Cmd C → Except Panic (Call C)
  | .getNamespaceList => .ok .getNamespaceList
  | .Quit => .ok .Quit
  | .podListOfName ns => .ok (.getPodList ns)
  | .podListOfModel m => .ok (.getPodList m.namespace_)
  | .containerListOfModel m => do
      let pod ← index m.choices m.cursor
      .ok (.getContainerList pod)
  | .containerLogsOfModel m => do
      let c ← index m.choices m.cursor
      .ok (.getContainerLogs m.namespace_ m.pod c.Name)
  | .viewport c => .ok (.viewport c)

/-- Source: `func getContainerList(pod corev1.Pod) tea.Msg`: two `range` loops that
append to the slices `containers` and `types`, which start out `nil`. -/
def getContainerList (pod : Pod) : Msg :=
  let start : List Container × List String := ([], [])
  let afterInit := pod.Spec.InitContainers.foldl
    (fun acc container => (acc.1 ++ [container], acc.2 ++ ["init container"])) start
  let afterAll := pod.Spec.Containers.foldl
    (fun acc container => (acc.1 ++ [container], acc.2 ++ ["container"])) afterInit
  .containerListMsg afterAll.1 afterAll.2

/-! ## The scrollable-view collaborator -/

/-- The operations of `github.com/charmbracelet/bubbles/viewport` the program
calls, on a model type `V` with command type `C`.  `zero` is the Go zero value
`viewport.Model{}` a fresh `containerLogModel` holds. -/
structure ViewportApi (V C : Type) where
  zero : V
  New : Int → Int → V
  SetContent : V → String → V
  Update : V → Msg → V × Option C
  View : V → String

/-! ## Transitions -/

/-- What an `Update` call leaves behind: the returned `(tea.Model, tea.Cmd)`
and the package variables after the call. -/
structure Step (V C : Type) where
  next : Model V
  cmd : Option (Cmd C)
  globals : Globals
  deriving DecidableEq, Repr

/-- Source: `func (m model) Init() tea.Cmd` -/
def model.Init {C : Type} (_m : model) : Option (Cmd C) :=
  some .getNamespaceList

/-- Source: `func (m podModel) Init() tea.Cmd` -/
def podModel.Init {C : Type} (_m : podModel) : Option (Cmd C) :=
  none

/-- Source: `func (m containerModel) Init() tea.Cmd` -/
def containerModel.Init {C : Type} (_m : containerModel) : Option (Cmd C) :=
  none

/-- Source: `func (m containerLogModel) Init() tea.Cmd` -/
def containerLogModel.Init {V C : Type} (_m : containerLogModel V) : Option (Cmd C) :=
  none

/-- Source: `func (m model) Update(msg tea.Msg) (tea.Model, tea.Cmd)` -/
def model.Update {V C : Type} (g : Globals) (m : model) : Msg → Except Panic (Step V C)
  | .namespaceListMsg items =>
      .ok ⟨.model { m with choices := items, populated := true }, none, g⟩
  | .WindowSizeMsg w h =>
      .ok ⟨.model m, none, { clientWidth := w, clientHeight := h }⟩
  | .KeyMsg key =>
      if key = "ctrl+c" ∨ key = "q" then
        .ok ⟨.model m, some .Quit, g⟩
      else if key = "up" ∨ key = "k" then
        .ok ⟨.model (if m.cursor > 0 then { m with cursor := m.cursor - 1 } else m), none, g⟩
      else if key = "down" ∨ key = "j" then
        .ok ⟨.model (if m.cursor < (m.choices.length : Int) - 1
                      then { m with cursor := m.cursor + 1 } else m), none, g⟩
      else if key = "r" then
        .ok ⟨.model { choices := [], cursor := 0, populated := false },
             some .getNamespaceList, g⟩
      else if key = "l" ∨ key = "enter" then
        if (m.choices.length : Int) - 1 < m.cursor then
          .ok ⟨.model m, none, g⟩
        else do
          let item ← index m.choices m.cursor
          let namespace_ := item.Name
          .ok ⟨.podModel { choices := [], cursor := 0, populated := false,
                           namespace_ := namespace_ } (.model m),
               some (.podListOfName namespace_), g⟩
      else .ok ⟨.model m, none, g⟩
  | _ => .ok ⟨.model m, none, g⟩

/-- Source: `func (m podModel) Update(msg tea.Msg) (tea.Model, tea.Cmd)`; `from_` is
the field `m.from`. -/
def podModel.Update {V C : Type} (g : Globals) (m : podModel) (from_ : Model V) :
    Msg → Except Panic (Step V C)
  | .podListMsg items =>
      .ok ⟨.podModel { m with choices := items, populated := true } from_, none, g⟩
  | .WindowSizeMsg w h =>
      .ok ⟨.podModel m from_, none, { clientWidth := w, clientHeight := h }⟩
  | .KeyMsg key =>
      if key = "ctrl+c" ∨ key = "q" then
        .ok ⟨.podModel m from_, some .Quit, g⟩
      else if key = "up" ∨ key = "k" then
        .ok ⟨.podModel (if m.cursor > 0 then { m with cursor := m.cursor - 1 } else m) from_,
             none, g⟩
      else if key = "down" ∨ key = "j" then
        .ok ⟨.podModel (if m.cursor < (m.choices.length : Int) - 1
                         then { m with cursor := m.cursor + 1 } else m) from_, none, g⟩
      else if key = "r" then
        let m := { m with cursor := 0 }
        .ok ⟨.podModel m from_, some (.podListOfModel m), g⟩
      else if key = "l" ∨ key = "enter" then
        if (m.choices.length : Int) - 1 < m.cursor then
          .ok ⟨.podModel m from_, none, g⟩
        else do
          let item ← index m.choices m.cursor
          .ok ⟨.containerModel { choices := [], types := [], cursor := 0, populated := false,
                                 pod := item.Name, namespace_ := m.namespace_ }
                 (.podModel m from_),
               some (.containerListOfModel m), g⟩
      else if key = "h" then
        .ok ⟨from_, none, g⟩
      else .ok ⟨.podModel m from_, none, g⟩
  | _ => .ok ⟨.podModel m from_, none, g⟩

/-- Source: `func (m containerModel) Update(msg tea.Msg) (tea.Model, tea.Cmd)`;
`from_` is the field `m.from`.  The select branch builds
`containerLogModel{from: m}` (zero viewport, `ready` false) without indexing;
the index expression sits in the closure and is evaluated by `Cmd.run`. -/
def containerModel.Update {V C : Type} (vp : ViewportApi V C) (g : Globals)
    (m : containerModel) (from_ : Model V) : Msg → Except Panic (Step V C)
  | .containerListMsg containers types =>
      .ok ⟨.containerModel { m with choices := containers, types := types, populated := true }
             from_, none, g⟩
  | .WindowSizeMsg w h =>
      .ok ⟨.containerModel m from_, none, { clientWidth := w, clientHeight := h }⟩
  | .KeyMsg key =>
      if key = "ctrl+c" ∨ key = "q" then
        .ok ⟨.containerModel m from_, some .Quit, g⟩
      else if key = "up" ∨ key = "k" then
        .ok ⟨.containerModel (if m.cursor > 0 then { m with cursor := m.cursor - 1 } else m)
               from_, none, g⟩
      else if key = "down" ∨ key = "j" then
        .ok ⟨.containerModel (if m.cursor < (m.choices.length : Int) - 1
                               then { m with cursor := m.cursor + 1 } else m) from_, none, g⟩
      else if key = "h" then
        .ok ⟨from_, none, g⟩
      else if key = "l" ∨ key = "enter" then
        if (m.choices.length : Int) - 1 < m.cursor then
          .ok ⟨.containerModel m from_, none, g⟩
        else
          .ok ⟨.containerLogModel { viewport := vp.zero, ready := false }
                 (.containerModel m from_),
               some (.containerLogsOfModel m), g⟩
      else .ok ⟨.containerModel m from_, none, g⟩
  | _ => .ok ⟨.containerModel m from_, none, g⟩

/-- The tail of `containerLogModel.Update` after its type switch:
`if m.ready { updated_viewport, cmd := m.viewport.Update(msg); ... return m, cmd }`
and otherwise `return m, nil`. -/
def containerLogModel.relay {V C : Type} (vp : ViewportApi V C) (g : Globals)
    (m : containerLogModel V) (from_ : Model V) (msg : Msg) : Step V C :=
  if m.ready then
    let r := vp.Update m.viewport msg
    ⟨.containerLogModel { m with viewport := r.1 } from_, r.2.map Cmd.viewport, g⟩
  else ⟨.containerLogModel m from_, none, g⟩

/-- Source: `func (m containerLogModel) Update(msg tea.Msg) (tea.Model, tea.Cmd)`;
`from_` is the field `m.from`.  This method has no `tea.WindowSizeMsg` case. -/
def containerLogModel.Update {V C : Type} (vp : ViewportApi V C) (g : Globals)
    (m : containerLogModel V) (from_ : Model V) (msg : Msg) : Except Panic (Step V C) :=
  match msg with
  | .KeyMsg key =>
      if key = "ctrl+c" ∨ key = "q" then
        .ok ⟨.containerLogModel m from_, some .Quit, g⟩
      else if key = "h" then
        .ok ⟨from_, none, g⟩
      else .ok (containerLogModel.relay vp g m from_ msg)
  | .containerLogMsg text =>
      let m : containerLogModel V :=
        { viewport := vp.SetContent (vp.New g.clientWidth g.clientHeight) text, ready := true }
      .ok (containerLogModel.relay vp g m from_ msg)
  | _ => .ok (containerLogModel.relay vp g m from_ msg)

/-- The interface call `m.Update(msg)` on a `tea.Model`: dynamic dispatch on
the model type; on the `nil` interface it panics. -/
def Model.Update {V C : Type} (vp : ViewportApi V C) (g : Globals) :
    Model V → Msg → Except Panic (Step V C)
  | .nil, _ => .error .nilModel
  | .model m, msg => model.Update g m msg
  | .podModel m f, msg => podModel.Update g m f msg
  | .containerModel m f, msg => containerModel.Update vp g m f msg
  | .containerLogModel m f, msg => containerLogModel.Update vp g m f msg

/-- The interface call `m.Init()`. -/
def Model.Init {V C : Type} : Model V → Except Panic (Option (Cmd C))
  | .nil => .error .nilModel
  | .model m => .ok m.Init
  | .podModel m _ => .ok m.Init
  | .containerModel m _ => .ok m.Init
  | .containerLogModel m _ => .ok m.Init

/-- The model `main` hands to `tea.NewProgram`: the zero value `model{}`. -/
def initialModel {V : Type} : Model V :=
  .model { choices := [], cursor := 0, populated := false }

/-- The event loop of the runtime on a finite sequence of messages: each
message goes to the active model's `Update`, whose returned model becomes the
active one; the returned command is handed to the runtime and is not part of
the navigation state.  The result is the final active model and package
variables. -/
def run {V C : Type} (vp : ViewportApi V C) (g : Globals) (s : Model V) :
    List Msg → Except Panic (Model V × Globals)
  | [] => .ok (s, g)
  | e :: es =>
      match Model.Update vp g s e with
      | .ok r => run vp r.globals r.next es
      | .error p => .error p

/-! ## Observations on a model -/

/-- The `from` field of a non-root model. -/
def Model.from? {V : Type} : Model V → Option (Model V)
  | .podModel _ f => some f
  | .containerModel _ f => some f
  | .containerLogModel _ f => some f
  | _ => none

/-- The model is one of the three list levels. -/
def Model.isList {V : Type} : Model V → Bool
  | .model _ => true
  | .podModel _ _ => true
  | .containerModel _ _ => true
  | _ => false

/-- The value `len(m.choices)` of a list level (0 elsewhere). -/
def Model.len {V : Type} : Model V → Nat
  | .model m => m.choices.length
  | .podModel m _ => m.choices.length
  | .containerModel m _ => m.choices.length
  | _ => 0

/-- The value `m.cursor` of a list level (0 elsewhere). -/
def Model.cursor {V : Type} : Model V → Int
  | .model m => m.cursor
  | .podModel m _ => m.cursor
  | .containerModel m _ => m.cursor
  | _ => 0

/-- The model with `cursor` replaced by `c` (only list levels have one). -/
def Model.setCursor {V : Type} (c : Int) : Model V → Model V
  | .model m => .model { m with cursor := c }
  | .podModel m f => .podModel { m with cursor := c } f
  | .containerModel m f => .containerModel { m with cursor := c } f
  | s => s

/-- A scrollable view that stores its size and content and ignores every
event: the simplest collaborator meeting the `create`/`setContent`/`handle`/
`render` contract.  It instantiates the parameters in closed examples. -/
structure PlainView where
  Width : Int
  Height : Int
  content : String
  deriving DecidableEq, Repr

/-- The operations of `PlainView`. -/
def plainViewport : ViewportApi PlainView Unit where
  zero := { Width := 0, Height := 0, content := "" }
  New := fun w h => { Width := w, Height := h, content := "" }
  SetContent := fun v s => { v with content := s }
  Update := fun v _ => (v, none)
  View := fun v => v.content

/-- The select key drills from `s`: `s` is a list level, the guard
`len(m.choices)-1 < m.cursor` of the select branch is false and, where the
transition itself evaluates `m.choices[m.cursor]` (Collection and Member), the
index is in range.  The lemma `drills_iff_push` relates it to `Update`. -/
def Model.drills {V : Type} : Model V → Prop
  | .model m => 0 ≤ m.cursor ∧ m.cursor < m.choices.length
  | .podModel m _ => 0 ≤ m.cursor ∧ m.cursor < m.choices.length
  | .containerModel m _ => m.cursor < m.choices.length
  | _ => False

/-- The message is not the select key, the back key or the quit key. -/
def Msg.passive : Msg → Prop
  | .KeyMsg key => key ≠ "l" ∧ key ≠ "enter" ∧ key ≠ "h" ∧ key ≠ "ctrl+c" ∧ key ≠ "q"
  | _ => True

/-! ## Levels and message kinds -/

/-- The four levels of the drill-down hierarchy. -/
inductive Level where
  | Collection
  | Member
  | SubMember
  | Content
  deriving DecidableEq, Repr

/-- The level of a model value: which of the four model types it is. -/
def Model.level {V : Type} : Model V → Option Level
  | .nil => none
  | .model _ => some .Collection
  | .podModel _ _ => some .Member
  | .containerModel _ _ => some .SubMember
  | .containerLogModel _ _ => some .Content

/-- A scrollable view that keeps its content and counts the events handed to
its update: another collaborator meeting the `create`/`setContent`/`handle`/
`render` contract. -/
structure CountingView where
  content : String
  events : Nat
  deriving DecidableEq, Repr

/-- The operations of `CountingView`. -/
def countingViewport : ViewportApi CountingView Unit where
  zero := { content := "", events := 0 }
  New := fun _ _ => { content := "", events := 0 }
  SetContent := fun v s => { v with content := s }
  Update := fun v _ => ({ v with events := v.events + 1 }, none)
  View := fun v => v.content

/-! ## The SelectableList invariant -/

/-- The SelectableList invariant for a list of length `len` with cursor
`cursor`: a non-empty list has its cursor in `[0, len-1]`, an empty one has
cursor 0. -/
def listInv (len : Nat) (cursor : Int) : Prop :=
  (0 < len → 0 ≤ cursor ∧ cursor ≤ (len : Int) - 1) ∧ (len = 0 → cursor = 0)

/-- Every list level on the back-reference chain of a state, the state
itself included, satisfies `listInv`. -/
def Model.listsInv {V : Type} : Model V → Prop
  | .nil => True
  | .model m => listInv m.choices.length m.cursor
  | .podModel m f => listInv m.choices.length m.cursor ∧ f.listsInv
  | .containerModel m f => listInv m.choices.length m.cursor ∧ f.listsInv
  | .containerLogModel _ f => f.listsInv

/-- The back-reference chain of a state ends in a Collection state (it does
not end in the `nil` interface value). -/
def Model.rooted {V : Type} : Model V → Prop
  | .nil => False
  | .model _ => True
  | .podModel _ f => f.rooted
  | .containerModel _ f => f.rooted
  | .containerLogModel _ f => f.rooted

/-- A message fits a state when, if it is the completion message the state
accepts, its list is longer than the state's cursor, or is empty while the
cursor is 0: the list it installs satisfies `listInv` with the cursor the
state has. Every other message fits. -/
def Msg.fits {V : Type} : Model V → Msg → Prop
  | .model m, .namespaceListMsg items => listInv items.length m.cursor
  | .podModel m _, .podListMsg items => listInv items.length m.cursor
  | .containerModel m _, .containerListMsg containers _ => listInv containers.length m.cursor
  | _, _ => True

/-- Every message of the sequence fits the state that is active when the
event loop delivers it. -/
def fitting {V C : Type} (vp : ViewportApi V C) (g : Globals) (s : Model V) : List Msg → Prop
  | [] => True
  | e :: es =>
      e.fits s ∧
        match Model.Update vp g s e with
        | .ok r => fitting vp r.globals r.next es
        | .error _ => True

instance listInv.decidable (len : Nat) (cursor : Int) : Decidable (listInv len cursor) :=
  inferInstanceAs
    (Decidable ((0 < len → 0 ≤ cursor ∧ cursor ≤ (len : Int) - 1) ∧ (len = 0 → cursor = 0)))

instance Model.listsInv.decidable {V : Type} : (s : Model V) → Decidable s.listsInv
  | .nil => isTrue trivial
  | .model m => inferInstanceAs (Decidable (listInv m.choices.length m.cursor))
  | .podModel m f =>
      have := Model.listsInv.decidable f
      inferInstanceAs (Decidable (listInv m.choices.length m.cursor ∧ f.listsInv))
  | .containerModel m f =>
      have := Model.listsInv.decidable f
      inferInstanceAs (Decidable (listInv m.choices.length m.cursor ∧ f.listsInv))
  | .containerLogModel _ f => Model.listsInv.decidable f

instance Msg.fits.decidable {V : Type} (s : Model V) (e : Msg) : Decidable (e.fits s) := by
  cases s <;> cases e <;> first
    | exact isTrue trivial
    | exact listInv.decidable _ _

instance fitting.decidable {V C : Type} (vp : ViewportApi V C) :
    (g : Globals) → (s : Model V) → (evs : List Msg) → Decidable (fitting vp g s evs)
  | _, _, [] => isTrue trivial
  | g, s, e :: es =>
      match h : Model.Update vp g s e with
      | .ok r =>
          have := fitting.decidable vp r.globals r.next es
          decidable_of_iff (e.fits s ∧ fitting vp r.globals r.next es) (by simp [fitting, h])
      | .error _ =>
          decidable_of_iff (e.fits s) (by simp [fitting, h])

instance Model.drills.decidable {V : Type} (s : Model V) : Decidable s.drills := by
  cases s <;> first
    | exact isFalse id
    | exact inferInstanceAs (Decidable (_ ∧ _))
    | exact inferInstanceAs (Decidable (_ < _))

instance Msg.passive.decidable (e : Msg) : Decidable e.passive := by
  cases e <;> first
    | exact isTrue trivial
    | exact inferInstanceAs (Decidable (_ ∧ _))

/-! ## The log fetch and the Content view -/

/-- What the cluster does with a log request: `req.Stream` returns an error,
`io.Copy` returns an error, or the stream is copied whole into the buffer. -/
inductive LogOutcome where
  | streamError
  | copyError
  | copied (str : String)
  deriving DecidableEq, Repr

/-- Source: `func getContainerLogs(namespace, pod, container string) tea.Msg`;
`provider` stands for the cluster behind `getClientSet()`. -/
def getContainerLogs (provider : String → String → String → LogOutcome)
    (namespace_ pod container : String) : Msg :=
  match provider namespace_ pod container with
  | .streamError => .containerLogMsg "Error in opening log stream"
  | .copyError => .containerLogMsg "Error copying logs from stream"
  | .copied str => .containerLogMsg str

/-- Source: `func (m containerLogModel) View() string` -/
def containerLogModel.View {V C : Type} (vp : ViewportApi V C) (m : containerLogModel V) :
    String :=
  if m.ready then vp.View m.viewport else "Retrieving logs ..."

/-! ## The shape of the back-reference chain -/

/-- The number of back-references that separate a level from the root. -/
def Level.depth : Level → Nat
  | .Collection => 0
  | .Member => 1
  | .SubMember => 2
  | .Content => 3

/-- The length of the back-reference chain of a state: the number of `from`
links that can be followed from it. -/
def Model.depth {V : Type} : Model V → Nat
  | .podModel _ f => f.depth + 1
  | .containerModel _ f => f.depth + 1
  | .containerLogModel _ f => f.depth + 1
  | _ => 0

/-- The back-reference chain is typed by level: a Collection state has no
back-reference, the `from` of a Member state is a Collection state, the `from`
of a SubMember state is a Member state, the `from` of a Content state is a
SubMember state, and so on down the chain. -/
def Model.typed {V : Type} : Model V → Prop
  | .nil => False
  | .model _ => True
  | .podModel _ f => f.level = some .Collection ∧ f.typed
  | .containerModel _ f => f.level = some .Member ∧ f.typed
  | .containerLogModel _ f => f.level = some .SubMember ∧ f.typed

/-- The cursor of every list level on the back-reference chain, the state
itself included, is at least 0. -/
def Model.cursorsNonneg {V : Type} : Model V → Prop
  | .nil => True
  | .model m => 0 ≤ m.cursor
  | .podModel m f => 0 ≤ m.cursor ∧ f.cursorsNonneg
  | .containerModel m f => 0 ≤ m.cursor ∧ f.cursorsNonneg
  | .containerLogModel _ f => f.cursorsNonneg

/-- The name of the item at the cursor of a list level, when the cursor is a
valid index. -/
def Model.itemName? {V : Type} : Model V → Option String
  | .model m => if 0 ≤ m.cursor then (m.choices[m.cursor.toNat]?).map (fun x => x.Name) else none
  | .podModel m _ =>
      if 0 ≤ m.cursor then (m.choices[m.cursor.toNat]?).map (fun x => x.Name) else none
  | .containerModel m _ =>
      if 0 ≤ m.cursor then (m.choices[m.cursor.toNat]?).map (fun x => x.Name) else none
  | _ => none

/-- The collection key (`namespace` field) of a Member or SubMember state. -/
def Model.namespace? {V : Type} : Model V → Option String
  | .podModel m _ => some m.namespace_
  | .containerModel m _ => some m.namespace_
  | _ => none

/-- The member key (`pod` field) of a SubMember state. -/
def Model.pod? {V : Type} : Model V → Option String
  | .containerModel m _ => some m.pod
  | _ => none

/-- The keys agree along the back-reference chain: the collection key of a
Member state is the name of the item at the cursor of its `from`; the
collection key of a SubMember state is the collection key of its `from` and
its member key is the name of the item at the cursor of its `from`; and the
same holds further down the chain. -/
def Model.keysAgree {V : Type} : Model V → Prop
  | .nil => True
  | .model _ => True
  | .podModel m f => f.itemName? = some m.namespace_ ∧ f.keysAgree
  | .containerModel m f =>
      f.namespace? = some m.namespace_ ∧ f.itemName? = some m.pod ∧ f.keysAgree
  | .containerLogModel _ f => f.keysAgree

/-- The command a step returns, if any, executes without panic. -/
def Step.cmdRuns {V C : Type} (r : Step V C) : Prop :=
  ∀ cmd, r.cmd = some cmd → ∃ call, cmd.run = .ok call

/-! ## Example states -/

/-- The Collection state with list `[a, b, c]`, cursor 1, populated. -/
def collectionABC : Model PlainView :=
  .model { choices := [⟨"a"⟩, ⟨"b"⟩, ⟨"c"⟩], cursor := 1, populated := true }

/-- A pod with the given name and no containers. -/
def barePod (name : String) : Pod :=
  { Name := name, Spec := { InitContainers := [], Containers := [] } }

/-- A refresh race at the Member level: the namespace `a` is opened, three
pods arrive, the cursor goes down to the last one, `r` resets the cursor and
re-issues the fetch, the cursor goes down twice again while the fetch is in
flight, and the fetch completes with a single pod. -/
def refreshRace : List Msg :=
  [.namespaceListMsg [⟨"a"⟩], .KeyMsg "l",
   .podListMsg [barePod "p1", barePod "p2", barePod "p3"],
   .KeyMsg "down", .KeyMsg "down", .KeyMsg "r", .KeyMsg "down", .KeyMsg "down",
   .podListMsg [barePod "p1"]]

/-- The state the refresh race ends in: one pod, cursor 2. -/
def refreshRaceEnd : Model PlainView :=
  .podModel { choices := [barePod "p1"], cursor := 2, populated := true, namespace_ := "a" }
    (.model { choices := [⟨"a"⟩], cursor := 0, populated := true })

/-- A session in which every list that arrives is longer than the cursor:
the namespaces arrive, the second is opened, its pods arrive, the cursor moves,
the level is refreshed, and the user goes back. -/
def calmSession : List Msg :=
  [.namespaceListMsg [⟨"a"⟩, ⟨"b"⟩], .KeyMsg "down", .KeyMsg "l",
   .podListMsg [barePod "p1", barePod "p2"], .KeyMsg "j", .WindowSizeMsg 80 24,
   .KeyMsg "r", .podListMsg [barePod "p1"], .KeyMsg "enter", .KeyMsg "h", .KeyMsg "h"]

/-- A Member state: the pods `[p1, p2]` of namespace `b`, cursor 1, populated,
pushed from `collectionABC`. -/
def memberP1P2 : Model PlainView :=
  .podModel { choices := [barePod "p1", barePod "p2"], cursor := 1, populated := true,
              namespace_ := "b" } collectionABC

/-- A SubMember state: the containers `[setup, app]` of pod `p2`, cursor 1,
pushed from `memberP1P2`. -/
def subMemberSetupApp : Model PlainView :=
  .containerModel { choices := [⟨"setup"⟩, ⟨"app"⟩], types := ["init container", "container"],
                    cursor := 1, populated := true, pod := "p2", namespace_ := "b" } memberP1P2

/-- Events none of which is select, back or quit. -/
def passiveEvents : List Msg :=
  [.podListMsg [barePod "p1", barePod "p2"], .KeyMsg "down", .WindowSizeMsg 100 40,
   .KeyMsg "r", .namespaceListMsg [], .containerLogMsg "late", .KeyMsg "x", .KeyMsg "up",
   .other]

/-- A SubMember state over `CountingView`, with its chain down to the root. -/
def countingParent : Model CountingView :=
  .containerModel { choices := [⟨"app"⟩], types := ["container"], cursor := 0,
                    populated := true, pod := "p1", namespace_ := "a" }
    (.podModel { choices := [barePod "p1"], cursor := 0, populated := true,
                 namespace_ := "a" }
      (.model { choices := [⟨"a"⟩], cursor := 0, populated := true }))

/-- A ready Content state over `CountingView`, pushed from `countingParent`. -/
def readyLog : Model CountingView :=
  .containerLogModel { viewport := { content := "log text", events := 0 }, ready := true }
    countingParent

/-- A session in which the terminal is resized while the log is loading: the
terminal reports 80 by 24 at start-up, the user drills down to a container log,
and the terminal is resized to 120 by 40 before the log arrives. -/
def resizeWhileLoading : List Msg :=
  [.WindowSizeMsg 80 24, .namespaceListMsg [⟨"a"⟩], .KeyMsg "l",
   .podListMsg [barePod "p1"], .KeyMsg "l",
   .containerListMsg [⟨"app"⟩] ["container"], .KeyMsg "l",
   .WindowSizeMsg 120 40]

/-- The SubMember state from which `resizeWhileLoading` opens the log. -/
def loadingParent : Model PlainView :=
  .containerModel { choices := [⟨"app"⟩], types := ["container"], cursor := 0,
                    populated := true, pod := "p1", namespace_ := "a" }
    (.podModel { choices := [barePod "p1"], cursor := 0, populated := true,
                 namespace_ := "a" }
      (.model { choices := [⟨"a"⟩], cursor := 0, populated := true }))

/-- The Content state `resizeWhileLoading` ends in: not ready yet. -/
def loadingLog : Model PlainView :=
  .containerLogModel { viewport := plainViewport.zero, ready := false } loadingParent

/-- The Content state after the log text `"log"` has arrived in `loadingLog`
under package variables 80 by 24. -/
def loadedLog : Model PlainView :=
  .containerLogModel { viewport := { Width := 80, Height := 24, content := "log" },
                       ready := true } loadingParent

/-! ## Basic facts -/

section Lemmas

variable {V C : Type}

/-- An index expression with an in-range index yields the element at that position. -/
theorem index_eq_getElem {α : Type} (xs : List α) (i : Int) (h0 : 0 ≤ i)
    (h1 : i < xs.length) :
    ∃ h : i.toNat < xs.length, index xs i = .ok (xs.get ⟨i.toNat, h⟩) := by
  have h : i.toNat < xs.length := by omega
  refine ⟨h, ?_⟩
  simp [index, h0, List.getElem?_eq_getElem h]

/-- An index expression with a negative index panics. -/
theorem index_error_of_neg {α : Type} (xs : List α) (i : Int) (h : i < 0) :
    index xs i = .error (.indexOutOfRange i xs.length) := by
  simp [index, not_le.mpr h]

/-- Writing a state's own cursor back changes nothing. -/
theorem setCursor_cursor (s : Model V) : s.setCursor s.cursor = s := by
  cases s <;> rfl

/-- The last cursor written wins. -/
theorem setCursor_setCursor (s : Model V) (c d : Int) :
    (s.setCursor c).setCursor d = s.setCursor d := by
  cases s <;> rfl

/-- Writing the cursor leaves the list length alone. -/
theorem len_setCursor (s : Model V) (c : Int) : (s.setCursor c).len = s.len := by
  cases s <;> rfl

/-- Writing the cursor leaves the level alone. -/
theorem isList_setCursor (s : Model V) (c : Int) : (s.setCursor c).isList = s.isList := by
  cases s <;> rfl

/-- On a list level the cursor read back is the cursor written. -/
theorem cursor_setCursor (s : Model V) (c : Int) (h : s.isList = true) :
    (s.setCursor c).cursor = c := by
  cases s <;> simp_all [Model.isList, Model.setCursor, Model.cursor]

/-- Writing the cursor leaves the back-reference alone. -/
theorem from_setCursor (s : Model V) (c : Int) : (s.setCursor c).from? = s.from? := by
  cases s <;> rfl

/-- The up key (`up`, `k`) on a list level: `if m.cursor > 0 { m.cursor-- }`. -/
theorem update_up (vp : ViewportApi V C) (g : Globals) (s : Model V) (hl : s.isList = true)
    (key : String) (hk : key = "up" ∨ key = "k") :
    Model.Update vp g s (.KeyMsg key)
      = .ok ⟨s.setCursor (if s.cursor > 0 then s.cursor - 1 else s.cursor), none, g⟩ := by
  rcases hk with rfl | rfl <;> cases s <;>
    simp_all [Model.isList, Model.Update, model.Update, podModel.Update, containerModel.Update,
      Model.setCursor, Model.cursor] <;> split <;> rfl

/-- The down key (`down`, `j`) on a list level:
`if m.cursor < len(m.choices)-1 { m.cursor++ }`. -/
theorem update_down (vp : ViewportApi V C) (g : Globals) (s : Model V) (hl : s.isList = true)
    (key : String) (hk : key = "down" ∨ key = "j") :
    Model.Update vp g s (.KeyMsg key)
      = .ok ⟨s.setCursor (if s.cursor < (s.len : Int) - 1 then s.cursor + 1 else s.cursor),
             none, g⟩ := by
  rcases hk with rfl | rfl <;> cases s <;>
    simp_all [Model.isList, Model.Update, model.Update, podModel.Update, containerModel.Update,
      Model.setCursor, Model.cursor, Model.len] <;> split <;> rfl

end Lemmas

/-! ## C2: cursor bound -/

section CursorBound

variable {V C : Type}

/-- One up or down key keeps an in-range cursor in range and touches nothing
but the cursor. -/
theorem update_move_in_range (vp : ViewportApi V C) (g : Globals) (s : Model V)
    (hl : s.isList = true) (h0 : 0 ≤ s.cursor) (h1 : s.cursor ≤ (s.len : Int) - 1)
    (key : String) (hk : key = "up" ∨ key = "k" ∨ key = "down" ∨ key = "j") :
    ∃ c : Int, 0 ≤ c ∧ c ≤ (s.len : Int) - 1
      ∧ Model.Update vp g s (.KeyMsg key) = .ok ⟨s.setCursor c, none, g⟩ := by
  rcases hk with hk | hk | hk | hk
  · refine ⟨_, ?_, ?_, update_up vp g s hl key (Or.inl hk)⟩ <;> split <;> omega
  · refine ⟨_, ?_, ?_, update_up vp g s hl key (Or.inr hk)⟩ <;> split <;> omega
  · refine ⟨_, ?_, ?_, update_down vp g s hl key (Or.inl hk)⟩ <;> split <;> omega
  · refine ⟨_, ?_, ?_, update_down vp g s hl key (Or.inr hk)⟩ <;> split <;> omega

/-- C2 (cursor bound).  For a Collection, Member or SubMember state with a
non-empty list of length `n` and cursor in `[0, n-1]`, handling any finite
sequence of up/down key presses (`up`, `k`, `down`, `j`) ends, without panic
and with the package variables untouched, in a state that differs from the
start state in its cursor only (so the list is unchanged) and whose cursor is
again in `[0, n-1]`. -/
theorem cursor_bound (vp : ViewportApi V C) (g : Globals) (s : Model V)
    (hl : s.isList = true) (hn : 0 < s.len)
    (h0 : 0 ≤ s.cursor) (h1 : s.cursor ≤ (s.len : Int) - 1)
    (keys : List String)
    (hk : ∀ key ∈ keys, key = "up" ∨ key = "k" ∨ key = "down" ∨ key = "j") :
    ∃ s' : Model V, run vp g s (keys.map Msg.KeyMsg) = .ok (s', g)
      ∧ s' = s.setCursor s'.cursor ∧ s'.len = s.len
      ∧ 0 ≤ s'.cursor ∧ s'.cursor ≤ (s.len : Int) - 1 := by
  induction keys generalizing s with
  | nil =>
      exact ⟨s, rfl, (setCursor_cursor s).symm, rfl, h0, h1⟩
  | cons key keys ih =>
      obtain ⟨c, hc0, hc1, hstep⟩ :=
        update_move_in_range vp g s hl h0 h1 key (hk key (List.mem_cons_self _ _))
      have hl' : (s.setCursor c).isList = true := by rw [isList_setCursor]; exact hl
      have hcur : (s.setCursor c).cursor = c := cursor_setCursor s c hl
      have hlen : (s.setCursor c).len = s.len := len_setCursor s c
      obtain ⟨s', hrun, hs', hlen', h0', h1'⟩ :=
        ih (s.setCursor c) hl' (by rw [hlen]; exact hn) (by rw [hcur]; exact hc0)
          (by rw [hcur, hlen]; exact hc1)
          (fun k hkm => hk k (List.mem_cons_of_mem _ hkm))
      refine ⟨s', ?_, ?_, ?_, h0', ?_⟩
      · simp only [List.map_cons, run, hstep]
        exact hrun
      · rw [setCursor_setCursor] at hs'
        exact hs'
      · rw [hlen', hlen]
      · rw [hlen] at h1'
        exact h1'

/-- C2 at a concrete input: the namespace list `[a, b, c]` with cursor 1 and
the key sequence down, down, j, up. -/
theorem cursor_bound_witness :
    ∃ s' : Model PlainView,
      run plainViewport Globals.initial collectionABC
          (["down", "down", "j", "up"].map Msg.KeyMsg) = .ok (s', Globals.initial)
      ∧ s' = collectionABC.setCursor s'.cursor ∧ s'.len = collectionABC.len
      ∧ 0 ≤ s'.cursor ∧ s'.cursor ≤ (collectionABC.len : Int) - 1 :=
  cursor_bound plainViewport Globals.initial collectionABC
    rfl (by decide) (by decide) (by decide) ["down", "down", "j", "up"] (by decide)

end CursorBound

/-! ## C1: back fidelity -/

section BackFidelity

variable {V C : Type}

/-- The back key `h` on a non-root level returns the stored `from`. -/
theorem update_back (vp : ViewportApi V C) (g : Globals) (c s : Model V)
    (hf : c.from? = some s) :
    Model.Update vp g c (.KeyMsg "h") = .ok ⟨s, none, g⟩ := by
  cases c <;>
    simp_all [Model.from?, Model.Update, podModel.Update, containerModel.Update,
      containerLogModel.Update]

/-- An event that is not select, back or quit never panics on a non-root
level and leaves the `from` field as it is. -/
theorem update_passive_from (vp : ViewportApi V C) (g : Globals) (c s : Model V)
    (hf : c.from? = some s) (e : Msg) (he : e.passive) :
    ∃ r, Model.Update vp g c e = .ok r ∧ r.next.from? = some s := by
  cases c with
  | nil => simp [Model.from?] at hf
  | model m => simp [Model.from?] at hf
  | podModel m f =>
      simp only [Model.from?, Option.some.injEq] at hf
      subst hf
      cases e <;> simp only [Model.Update, podModel.Update, Msg.passive] at he ⊢ <;>
        first
          | exact ⟨_, rfl, rfl⟩
          | (obtain ⟨h1, h2, h3, h4, h5⟩ := he
             simp only [h1, h2, h3, h4, h5, or_self, if_false]
             split_ifs <;> exact ⟨_, rfl, rfl⟩)
  | containerModel m f =>
      simp only [Model.from?, Option.some.injEq] at hf
      subst hf
      cases e <;> simp only [Model.Update, containerModel.Update, Msg.passive] at he ⊢ <;>
        first
          | exact ⟨_, rfl, rfl⟩
          | (obtain ⟨h1, h2, h3, h4, h5⟩ := he
             simp only [h1, h2, h3, h4, h5, or_self, if_false]
             split_ifs <;> exact ⟨_, rfl, rfl⟩)
  | containerLogModel m f =>
      simp only [Model.from?, Option.some.injEq] at hf
      subst hf
      cases e <;>
        simp only [Model.Update, containerLogModel.Update, containerLogModel.relay,
          Msg.passive] at he ⊢ <;>
        first
          | (split_ifs <;> exact ⟨_, rfl, rfl⟩)
          | (obtain ⟨h1, h2, h3, h4, h5⟩ := he
             simp only [h1, h2, h3, h4, h5, or_self, if_false]
             split_ifs <;> exact ⟨_, rfl, rfl⟩)

/-- A sequence of such events never panics on a non-root level and leaves
the `from` field as it is. -/
theorem run_passive_from (vp : ViewportApi V C) (evs : List Msg)
    (hevs : ∀ e ∈ evs, e.passive) (g : Globals) (c s : Model V) (hf : c.from? = some s) :
    ∃ c' g', run vp g c evs = .ok (c', g') ∧ c'.from? = some s := by
  induction evs generalizing g c with
  | nil => exact ⟨c, g, rfl, hf⟩
  | cons e evs ih =>
      obtain ⟨r, hr, hrf⟩ := update_passive_from vp g c s hf e (hevs e (List.mem_cons_self _ _))
      obtain ⟨c', g', hrun, hc'⟩ :=
        ih (fun e' he' => hevs e' (List.mem_cons_of_mem _ he')) r.globals r.next hrf
      exact ⟨c', g', by simp only [run, hr]; exact hrun, hc'⟩

/-- The select key (`l`, `enter`) on a state that drills pushes a child whose
`from` is the state itself and returns a command. -/
theorem update_select_push (vp : ViewportApi V C) (g : Globals) (s : Model V)
    (hs : s.drills) (sel : String) (hsel : sel = "l" ∨ sel = "enter") :
    ∃ r, Model.Update vp g s (.KeyMsg sel) = .ok r ∧ r.next.from? = some s
      ∧ r.cmd.isSome = true ∧ r.globals = g := by
  cases s with
  | nil => exact hs.elim
  | containerLogModel m f => exact hs.elim
  | model m =>
      obtain ⟨h0, h1⟩ := hs
      obtain ⟨_, hi⟩ := index_eq_getElem m.choices m.cursor h0 h1
      have hg : ¬ ((m.choices.length : Int) - 1 < m.cursor) := by omega
      rcases hsel with rfl | rfl <;>
        simp [Model.Update, model.Update, hg, hi, Model.from?, bind, Except.bind]
  | podModel m f =>
      obtain ⟨h0, h1⟩ := hs
      obtain ⟨_, hi⟩ := index_eq_getElem m.choices m.cursor h0 h1
      have hg : ¬ ((m.choices.length : Int) - 1 < m.cursor) := by omega
      rcases hsel with rfl | rfl <;>
        simp [Model.Update, podModel.Update, hg, hi, Model.from?, bind, Except.bind]
  | containerModel m f =>
      have hg : ¬ ((m.choices.length : Int) - 1 < m.cursor) := by
        have h1 : m.cursor < m.choices.length := hs
        omega
      rcases hsel with rfl | rfl <;>
        simp [Model.Update, containerModel.Update, hg, Model.from?]

/-- A Member state is not its own back-reference. -/
theorem ne_podModel (m : podModel) (f : Model V) : f ≠ .podModel m f := by
  intro h
  have := congrArg sizeOf h
  simp at this

/-- A SubMember state is not its own back-reference. -/
theorem ne_containerModel (m : containerModel) (f : Model V) : f ≠ .containerModel m f := by
  intro h
  have := congrArg sizeOf h
  simp at this

/-- A Content state is not its own back-reference. -/
theorem ne_containerLogModel (m : containerLogModel V) (f : Model V) :
    f ≠ .containerLogModel m f := by
  intro h
  have := congrArg sizeOf h
  simp at this

/-- The predicate `drills` is exactly: handling the select key returns,
without panic, a state whose `from` is the state the key was handled in. -/
theorem drills_iff_push (vp : ViewportApi V C) (g : Globals) (s : Model V) :
    s.drills ↔ ∃ r, Model.Update vp g s (.KeyMsg "l") = .ok r ∧ r.next.from? = some s := by
  constructor
  · intro hs
    obtain ⟨r, hr, hrf, _⟩ := update_select_push vp g s hs "l" (Or.inl rfl)
    exact ⟨r, hr, hrf⟩
  · rintro ⟨r, hr, hrf⟩
    cases s with
    | nil => simp [Model.Update] at hr
    | model m =>
        by_cases hg : (m.choices.length : Int) - 1 < m.cursor
        · simp [Model.Update, model.Update, hg] at hr
          subst hr
          simp [Model.from?] at hrf
        · by_cases h0 : 0 ≤ m.cursor
          · exact ⟨h0, by omega⟩
          · rw [not_le] at h0
            simp [Model.Update, model.Update, hg, index_error_of_neg _ _ h0, bind,
              Except.bind] at hr
    | podModel m f =>
        by_cases hg : (m.choices.length : Int) - 1 < m.cursor
        · simp [Model.Update, podModel.Update, hg] at hr
          subst hr
          simp only [Model.from?, Option.some.injEq] at hrf
          exact absurd hrf (ne_podModel m f)
        · by_cases h0 : 0 ≤ m.cursor
          · exact ⟨h0, by omega⟩
          · rw [not_le] at h0
            simp [Model.Update, podModel.Update, hg, index_error_of_neg _ _ h0, bind,
              Except.bind] at hr
    | containerModel m f =>
        by_cases hg : (m.choices.length : Int) - 1 < m.cursor
        · simp [Model.Update, containerModel.Update, hg] at hr
          subst hr
          simp only [Model.from?, Option.some.injEq] at hrf
          exact absurd hrf (ne_containerModel m f)
        · show m.cursor < m.choices.length
          omega
    | containerLogModel m f =>
        simp only [Model.Update, containerLogModel.Update, containerLogModel.relay] at hr
        simp only [String.reduceEq, or_self, if_false] at hr
        split at hr <;> simp only [Except.ok.injEq] at hr <;> subst hr <;>
          simp only [Model.from?, Option.some.injEq] at hrf <;>
          exact absurd hrf (ne_containerLogModel _ f)

/-- C1 (back fidelity).  For each of the three pushes: let `s` be a
Collection, Member or SubMember state whose select key drills.  Handling
select (`l` or `enter`) in `s` returns a child whose back-reference is `s`;
handling in that child any sequence of events none of which is select, back
or quit never panics; and handling the back key `h` afterwards returns
exactly `s` (the whole value: list, cursor, populated flag, keys and its own
back-reference) and no command. -/
theorem back_fidelity (vp : ViewportApi V C) (g : Globals) (s : Model V) (hs : s.drills)
    (sel : String) (hsel : sel = "l" ∨ sel = "enter")
    (evs : List Msg) (hevs : ∀ e ∈ evs, e.passive) :
    ∃ r, Model.Update vp g s (.KeyMsg sel) = .ok r ∧ r.next.from? = some s
      ∧ ∃ c g', run vp r.globals r.next evs = .ok (c, g')
          ∧ Model.Update vp g' c (.KeyMsg "h") = .ok ⟨s, none, g'⟩ := by
  obtain ⟨r, hr, hrf, _, _⟩ := update_select_push vp g s hs sel hsel
  obtain ⟨c, g', hrun, hc⟩ := run_passive_from vp evs hevs r.globals r.next s hrf
  exact ⟨r, hr, hrf, c, g', hrun, update_back vp g' c s hc⟩

/-- C1 at a concrete input: the Collection `[a, b, c]` with cursor 1, the
select key `l`, and a mixed sequence of events in the Member child. -/
theorem back_fidelity_witness :
    ∃ r, Model.Update plainViewport Globals.initial collectionABC (.KeyMsg "l") = .ok r
      ∧ r.next.from? = some collectionABC
      ∧ ∃ c g', run plainViewport r.globals r.next passiveEvents = .ok (c, g')
          ∧ Model.Update plainViewport g' c (.KeyMsg "h") = .ok ⟨collectionABC, none, g'⟩ :=
  back_fidelity plainViewport Globals.initial collectionABC (by decide) "l" (Or.inl rfl)
    passiveEvents (by decide)

end BackFidelity

/-! ## C3: the SelectableList invariant over all events -/

section Invariant

variable {V C : Type}

/-- The empty list with cursor 0 satisfies the invariant. -/
theorem listInv_zero : listInv 0 0 := by
  simp [listInv]

/-- On a list that satisfies the invariant, a false select guard means the
cursor is a valid index. -/
theorem listInv_index {α : Type} (xs : List α) (c : Int) (h : listInv xs.length c)
    (hg : ¬ ((xs.length : Int) - 1 < c)) :
    ∃ x, index xs c = .ok x := by
  have h0 : 0 ≤ c ∧ c < xs.length := by
    unfold listInv at h
    omega
  obtain ⟨_, hi⟩ := index_eq_getElem xs c h0.1 h0.2
  exact ⟨_, hi⟩

/-- The invariant survives `m.cursor--` under the guard `m.cursor > 0`. -/
theorem listInv_pred (n : Nat) (c : Int) (h : listInv n c) (hc : c > 0) :
    listInv n (c - 1) := by
  unfold listInv at *
  omega

/-- The invariant survives `m.cursor++` under the guard `m.cursor < len(m.choices)-1`. -/
theorem listInv_succ (n : Nat) (c : Int) (h : listInv n c) (hc : c < (n : Int) - 1) :
    listInv n (c + 1) := by
  unfold listInv at *
  omega

/-- Cursor 0 satisfies the invariant for a list of any length. -/
theorem listInv_reset (n : Nat) : listInv n 0 := by
  unfold listInv
  omega

/-- One event that fits a well-formed state never panics and leads to a
well-formed state again. -/
theorem update_preserves_listsInv (vp : ViewportApi V C) (g : Globals) (s : Model V)
    (hroot : s.rooted) (hinv : s.listsInv) (e : Msg) (he : e.fits s) :
    ∃ r, Model.Update vp g s e = .ok r ∧ r.next.rooted ∧ r.next.listsInv := by
  cases s with
  | nil => exact hroot.elim
  | model m =>
      have hm : listInv m.choices.length m.cursor := hinv
      cases e with
      | KeyMsg key =>
          simp only [Model.Update, model.Update]
          split_ifs
          all_goals first
            | exact ⟨_, rfl, hroot, hinv⟩
            | exact ⟨_, rfl, trivial, listInv_zero⟩
            | exact ⟨_, rfl, trivial, listInv_pred _ _ hm (by assumption)⟩
            | exact ⟨_, rfl, trivial, listInv_succ _ _ hm (by assumption)⟩
            | (obtain ⟨x, hx⟩ := listInv_index m.choices m.cursor hm (by assumption)
               simp only [hx, bind, Except.bind]
               exact ⟨_, rfl, trivial, listInv_zero, hm⟩)
      | namespaceListMsg items => exact ⟨_, rfl, trivial, he⟩
      | _ => exact ⟨_, rfl, hroot, hinv⟩
  | podModel m f =>
      have hm : listInv m.choices.length m.cursor := hinv.1
      have hf : f.listsInv := hinv.2
      have hfr : f.rooted := hroot
      cases e with
      | KeyMsg key =>
          simp only [Model.Update, podModel.Update]
          split_ifs
          all_goals first
            | exact ⟨_, rfl, hroot, hinv⟩
            | exact ⟨_, rfl, hfr, hf⟩
            | exact ⟨_, rfl, hfr, listInv_pred _ _ hm (by assumption), hf⟩
            | exact ⟨_, rfl, hfr, listInv_succ _ _ hm (by assumption), hf⟩
            | exact ⟨_, rfl, hfr, listInv_reset _, hf⟩
            | (obtain ⟨x, hx⟩ := listInv_index m.choices m.cursor hm (by assumption)
               simp only [hx, bind, Except.bind]
               exact ⟨_, rfl, hfr, listInv_zero, hm, hf⟩)
      | podListMsg items => exact ⟨_, rfl, hfr, he, hf⟩
      | _ => exact ⟨_, rfl, hroot, hinv⟩
  | containerModel m f =>
      have hm : listInv m.choices.length m.cursor := hinv.1
      have hf : f.listsInv := hinv.2
      have hfr : f.rooted := hroot
      cases e with
      | KeyMsg key =>
          simp only [Model.Update, containerModel.Update]
          split_ifs
          all_goals first
            | exact ⟨_, rfl, hroot, hinv⟩
            | exact ⟨_, rfl, hfr, hf⟩
            | exact ⟨_, rfl, hfr, listInv_pred _ _ hm (by assumption), hf⟩
            | exact ⟨_, rfl, hfr, listInv_succ _ _ hm (by assumption), hf⟩
      | containerListMsg containers types => exact ⟨_, rfl, hfr, he, hf⟩
      | _ => exact ⟨_, rfl, hroot, hinv⟩
  | containerLogModel m f =>
      have hf : f.listsInv := hinv
      have hfr : f.rooted := hroot
      cases e <;>
        simp only [Model.Update, containerLogModel.Update, containerLogModel.relay] <;>
        split_ifs <;> exact ⟨_, rfl, hfr, hf⟩

/-- A fitting sequence of events never panics from a well-formed state and
ends in a well-formed state. -/
theorem run_preserves_listsInv (vp : ViewportApi V C) (evs : List Msg) (g : Globals)
    (s : Model V) (hroot : s.rooted) (hinv : s.listsInv) (hfit : fitting vp g s evs) :
    ∃ s' g', run vp g s evs = .ok (s', g') ∧ s'.rooted ∧ s'.listsInv := by
  induction evs generalizing g s with
  | nil => exact ⟨s, g, rfl, hroot, hinv⟩
  | cons e evs ih =>
      obtain ⟨he, hrest⟩ := hfit
      obtain ⟨r, hr, hr1, hr2⟩ := update_preserves_listsInv vp g s hroot hinv e he
      rw [hr] at hrest
      obtain ⟨s', g', hrun, h1, h2⟩ := ih r.globals r.next hr1 hr2 hrest
      exact ⟨s', g', by simp only [run, hr]; exact hrun, h1, h2⟩

/-- C3, as stated, fails: the refresh race is a sequence of key presses and
fetch completions from the initial root state that ends in a Member state
with a one-element list and cursor 2. -/
theorem selectable_list_invariant_counterexample :
    run plainViewport Globals.initial initialModel refreshRace
        = .ok (refreshRaceEnd, Globals.initial)
      ∧ ¬ refreshRaceEnd.listsInv := by
  constructor
  · rfl
  · decide

/-- C3, amended.  In every state reachable from the initial root state
`model{}` by a finite sequence of key presses, resize events and
fetch-completion messages in which every completion message the active level
accepts carries a list longer than that level's cursor (or an empty list
while that cursor is 0), the event loop has not panicked and every list level
(the active state and every state on its back-reference chain) satisfies: a
non-empty list has its cursor in `[0, len-1]`, an empty list has cursor 0. -/
theorem selectable_list_invariant (vp : ViewportApi V C) (evs : List Msg)
    (hfit : fitting vp Globals.initial initialModel evs) :
    ∃ s g, run vp Globals.initial initialModel evs = .ok (s, g) ∧ s.listsInv := by
  obtain ⟨s, g, hrun, _, hinv⟩ :=
    run_preserves_listsInv vp evs Globals.initial initialModel trivial listInv_zero hfit
  exact ⟨s, g, hrun, hinv⟩

/-- C3, amended, at a concrete session. -/
theorem selectable_list_invariant_witness :
    fitting plainViewport Globals.initial initialModel calmSession
      ∧ ∃ s g, run plainViewport Globals.initial initialModel calmSession = .ok (s, g)
          ∧ s.listsInv :=
  ⟨by decide, selectable_list_invariant plainViewport calmSession (by decide)⟩

end Invariant

/-! ## The select guard -/

section NoOpDrill

variable {V C : Type}

/-- The select key under a true guard `len(m.choices)-1 < m.cursor`: `break`,
then `return m, nil`. -/
theorem update_select_guarded (vp : ViewportApi V C) (g : Globals) (s : Model V)
    (hl : s.isList = true) (hg : (s.len : Int) - 1 < s.cursor)
    (sel : String) (hsel : sel = "l" ∨ sel = "enter") :
    Model.Update vp g s (.KeyMsg sel) = .ok ⟨s, none, g⟩ := by
  rcases hsel with rfl | rfl <;> cases s <;>
    simp_all [Model.isList, Model.len, Model.cursor, Model.Update, model.Update,
      podModel.Update, containerModel.Update]

end NoOpDrill

/-! ## C5: drill keying -/

section DrillKeying

variable {V C : Type}

/-- An index expression at a non-negative index yields the element found there. -/
theorem index_of_getElem? {α : Type} (xs : List α) (i : Int) (x : α) (h0 : 0 ≤ i)
    (hx : xs[i.toNat]? = some x) : index xs i = .ok x := by
  simp [index, h0, hx]

/-- The select guard is false at a non-negative index that holds an element. -/
theorem guard_of_getElem? {α : Type} (xs : List α) (i : Int) (x : α) (h0 : 0 ≤ i)
    (hx : xs[i.toNat]? = some x) : ¬ ((xs.length : Int) - 1 < i) := by
  have h := (List.getElem?_eq_some_iff.mp hx).1
  omega

/-- C5 (drill keying).  Let the cursor of a parent state be a valid index and
`item` the element of `choices` at the cursor.  Handling select (`l` or
`enter`) returns a fresh child whose back-reference is the parent itself:
* Collection: a Member state with empty list, cursor 0, not populated and
  collection key `item.Name`, with a command that calls `getPodList(item.Name)`;
* Member: a SubMember state with empty list, cursor 0, not populated, the
  parent's collection key and member key `item.Name`, with a command that calls
  `getContainerList(item)`;
* SubMember: a Content state with the zero viewport, not ready, with a command
  that calls `getContainerLogs(namespace, pod, item.Name)` for the SubMember's
  keys. -/
theorem drill_keying (vp : ViewportApi V C) (g : Globals) (sel : String)
    (hsel : sel = "l" ∨ sel = "enter") :
    (∀ (m : model) (item : Namespace), 0 ≤ m.cursor → m.choices[m.cursor.toNat]? = some item →
        Model.Update vp g (.model m) (.KeyMsg sel)
            = .ok ⟨.podModel { choices := [], cursor := 0, populated := false,
                               namespace_ := item.Name } (.model m),
                   some (.podListOfName item.Name), g⟩
          ∧ (Cmd.podListOfName item.Name : Cmd C).run = .ok (.getPodList item.Name))
    ∧ (∀ (m : podModel) (f : Model V) (item : Pod), 0 ≤ m.cursor →
        m.choices[m.cursor.toNat]? = some item →
        Model.Update vp g (.podModel m f) (.KeyMsg sel)
            = .ok ⟨.containerModel { choices := [], types := [], cursor := 0,
                                     populated := false, pod := item.Name,
                                     namespace_ := m.namespace_ } (.podModel m f),
                   some (.containerListOfModel m), g⟩
          ∧ (Cmd.containerListOfModel m : Cmd C).run = .ok (.getContainerList item))
    ∧ (∀ (m : containerModel) (f : Model V) (item : Container), 0 ≤ m.cursor →
        m.choices[m.cursor.toNat]? = some item →
        Model.Update vp g (.containerModel m f) (.KeyMsg sel)
            = .ok ⟨.containerLogModel { viewport := vp.zero, ready := false }
                     (.containerModel m f),
                   some (.containerLogsOfModel m), g⟩
          ∧ (Cmd.containerLogsOfModel m : Cmd C).run
              = .ok (.getContainerLogs m.namespace_ m.pod item.Name)) := by
  refine ⟨?_, ?_, ?_⟩
  · intro m item h0 hx
    have hi := index_of_getElem? m.choices m.cursor item h0 hx
    have hg := guard_of_getElem? m.choices m.cursor item h0 hx
    rcases hsel with rfl | rfl <;>
      simp [Model.Update, model.Update, hg, hi, bind, Except.bind, Cmd.run]
  · intro m f item h0 hx
    have hi := index_of_getElem? m.choices m.cursor item h0 hx
    have hg := guard_of_getElem? m.choices m.cursor item h0 hx
    rcases hsel with rfl | rfl <;>
      simp [Model.Update, podModel.Update, hg, hi, bind, Except.bind, Cmd.run]
  · intro m f item h0 hx
    have hi := index_of_getElem? m.choices m.cursor item h0 hx
    have hg := guard_of_getElem? m.choices m.cursor item h0 hx
    rcases hsel with rfl | rfl <;>
      simp [Model.Update, containerModel.Update, hg, hi, bind, Except.bind, Cmd.run]

/-- C5 at the Collection `[a, b, c]` with cursor 1: select drills to the
Member level keyed `"b"` and fetches the pods of `"b"`. -/
theorem drill_keying_witness :
    Model.Update plainViewport Globals.initial collectionABC (.KeyMsg "l")
        = .ok ⟨.podModel { choices := [], cursor := 0, populated := false, namespace_ := "b" }
                 collectionABC,
               some (.podListOfName "b"), Globals.initial⟩
      ∧ (Cmd.podListOfName "b" : Cmd Unit).run = .ok (.getPodList "b") :=
  (drill_keying plainViewport Globals.initial "l" (Or.inl rfl)).1
    { choices := [⟨"a"⟩, ⟨"b"⟩, ⟨"c"⟩], cursor := 1, populated := true } ⟨"b"⟩
    (by decide) rfl

end DrillKeying

/-! ## C6 to C9: refresh -/

section Refresh

variable {V C : Type}

/-- C6 (refresh at the Member level).  For every Member state `m`, handling
the key `r` returns the Member state with cursor 0 and the list, populated
flag, collection key and back-reference of `m`, together with one command,
whose execution calls `getPodList` on `m`'s own collection key. -/
theorem member_refresh (vp : ViewportApi V C) (g : Globals) (m : podModel) (f : Model V) :
    ∃ cmd : Cmd C,
      Model.Update vp g (.podModel m f) (.KeyMsg "r")
          = .ok ⟨.podModel { choices := m.choices, cursor := 0, populated := m.populated,
                             namespace_ := m.namespace_ } f,
                 some cmd, g⟩
        ∧ cmd.run = .ok (.getPodList m.namespace_) := by
  refine ⟨.podListOfModel { m with cursor := 0 }, ?_, rfl⟩
  simp [Model.Update, podModel.Update]

/-- C7, as stated, fails: `containerModel.Update` has no `case "r"`.  On the
SubMember state `[setup, app]` with cursor 1 the key `r` returns the state as
it is, cursor 1, and no command. -/
theorem submember_refresh_counterexample :
    Model.Update plainViewport Globals.initial subMemberSetupApp (.KeyMsg "r")
        = .ok ⟨subMemberSetupApp, none, Globals.initial⟩
      ∧ subMemberSetupApp.cursor = 1 := by
  constructor <;> rfl

/-- C7, amended.  For every SubMember state `m`, handling the key `r`
returns `m` unchanged (the cursor keeps its value) and no command: the
SubMember level has no refresh. -/
theorem submember_refresh_absent (vp : ViewportApi V C) (g : Globals) (m : containerModel)
    (f : Model V) :
    Model.Update vp g (.containerModel m f) (.KeyMsg "r")
      = .ok ⟨.containerModel m f, none, g⟩ := by
  simp [Model.Update, containerModel.Update]

/-- C8, as stated, fails at the Member level: on a populated Member state
the key `r` returns a state whose populated flag is still true. -/
theorem refresh_populated_counterexample :
    Model.Update plainViewport Globals.initial memberP1P2 (.KeyMsg "r")
      = .ok ⟨.podModel { choices := [barePod "p1", barePod "p2"], cursor := 0,
                         populated := true, namespace_ := "b" } collectionABC,
             some (.podListOfModel { choices := [barePod "p1", barePod "p2"], cursor := 0,
                                     populated := true, namespace_ := "b" }),
             Globals.initial⟩ := by
  rfl

/-- C8, amended.  For every Collection state the state returned by handling
the key `r` has `populated = false`; for every Member state the state returned
by handling `r` has the populated flag the Member state had before. -/
theorem refresh_populated (vp : ViewportApi V C) (g : Globals) :
    (∀ m : model, ∃ (m' : model) (c : Option (Cmd C)),
        Model.Update vp g (.model m) (.KeyMsg "r") = .ok ⟨.model m', c, g⟩
          ∧ m'.populated = false)
    ∧ (∀ (m : podModel) (f : Model V), ∃ (m' : podModel) (c : Option (Cmd C)),
        Model.Update vp g (.podModel m f) (.KeyMsg "r") = .ok ⟨.podModel m' f, c, g⟩
          ∧ m'.populated = m.populated) := by
  constructor
  · intro m
    exact ⟨{ choices := [], cursor := 0, populated := false }, some .getNamespaceList,
      by simp [Model.Update, model.Update], rfl⟩
  · intro m f
    exact ⟨{ m with cursor := 0 }, some (.podListOfModel { m with cursor := 0 }),
      by simp [Model.Update, podModel.Update], rfl⟩

/-- C9 (Collection refresh restarts at the root).  For every Collection state
`m`, handling the key `r` returns exactly the initial root state `model{}`
(empty list, cursor 0, populated false) together with exactly the command the
root's `Init` returns, the function `getNamespaceList`. -/
theorem collection_refresh (vp : ViewportApi V C) (g : Globals) (m : model) :
    ∃ c : Option (Cmd C),
      Model.Update vp g (.model m) (.KeyMsg "r") = .ok ⟨initialModel, c, g⟩
        ∧ Model.Init (initialModel : Model V) = .ok c
        ∧ c = some .getNamespaceList
        ∧ (initialModel : Model V)
            = .model { choices := [], cursor := 0, populated := false } := by
  refine ⟨some .getNamespaceList, ?_, rfl, rfl, rfl⟩
  simp [Model.Update, model.Update, initialModel]

end Refresh

/-! ## C10: stale completion messages -/

section Stale

variable {V C : Type}

end Stale

/-! ## C11: a matching completion populates the level -/

section Completion

variable {V C : Type}

/-- C11 (matching completion populates the level).  For every Collection,
Member or SubMember state and every completion message of the level's own kind
carrying a sequence `xs`, handling it returns the state whose list is exactly
`xs` (same elements, same order, nothing kept of the old list) and whose
populated flag is true, with the cursor, the keys and the back-reference it had
before, and no command; the package variables stay as they are.  At the
SubMember level the `types` slice is replaced by the one in the message. -/
theorem completion_populates (vp : ViewportApi V C) (g : Globals) :
    (∀ (m : model) (xs : List Namespace),
        Model.Update vp g (.model m) (.namespaceListMsg xs)
          = .ok ⟨.model { choices := xs, cursor := m.cursor, populated := true }, none, g⟩)
    ∧ (∀ (m : podModel) (f : Model V) (xs : List Pod),
        Model.Update vp g (.podModel m f) (.podListMsg xs)
          = .ok ⟨.podModel { choices := xs, cursor := m.cursor, populated := true,
                             namespace_ := m.namespace_ } f, none, g⟩)
    ∧ (∀ (m : containerModel) (f : Model V) (xs : List Container) (ts : List String),
        Model.Update vp g (.containerModel m f) (.containerListMsg xs ts)
          = .ok ⟨.containerModel { choices := xs, types := ts, cursor := m.cursor,
                                   populated := true, pod := m.pod,
                                   namespace_ := m.namespace_ } f, none, g⟩) :=
  ⟨fun _ _ => rfl, fun _ _ _ => rfl, fun _ _ _ _ => rfl⟩

end Completion

/-! ## C12: the order of the sub-members -/

section SubMemberOrder

/-- A `range` loop that appends each element and one fixed label extends the
two slices by the elements, in order, and by as many copies of the label. -/
theorem foldl_append_label (label : String) (xs : List Container)
    (acc : List Container × List String) :
    xs.foldl (fun acc container => (acc.1 ++ [container], acc.2 ++ [label])) acc
      = (acc.1 ++ xs, acc.2 ++ List.replicate xs.length label) := by
  induction xs generalizing acc with
  | nil => simp
  | cons x xs ih =>
      simp only [List.foldl_cons, ih, List.length_cons, List.replicate_succ,
        List.append_assoc, List.singleton_append]

/-- The label at position `i` of `n` copies of one label followed by `k`
copies of another. -/
theorem getElem?_two_labels (a b : String) (n k i : Nat) :
    (List.replicate n a ++ List.replicate k b)[i]?
      = if i < n then some a else if i < n + k then some b else none := by
  by_cases h : i < n
  · rw [List.getElem?_append_left (by simpa using h)]
    simp [h, List.getElem?_replicate]
  · rw [List.getElem?_append_right (by simpa using h)]
    simp only [List.length_replicate, h, if_false, List.getElem?_replicate]
    by_cases h2 : i < n + k
    · have : i - n < k := by omega
      simp [h2, this]
    · have : ¬ (i - n < k) := by omega
      simp [h2, this]

/-- C12 (sub-member ordering).  For every pod with init containers `I` and
regular containers `C`, `getContainerList` returns a message whose containers
are exactly `I` followed by `C` and whose `types` has the same length, with
entry `i` equal to `"init container"` for `i < len(I)` and to `"container"`
from `len(I)` up to the end. -/
theorem container_list_order (pod : Pod) :
    ∃ (containers : List Container) (types : List String),
      getContainerList pod = .containerListMsg containers types
        ∧ containers = pod.Spec.InitContainers ++ pod.Spec.Containers
        ∧ types.length = containers.length
        ∧ ∀ i : Nat, types[i]? =
            if i < pod.Spec.InitContainers.length then some "init container"
            else if i < pod.Spec.InitContainers.length + pod.Spec.Containers.length
              then some "container"
            else none := by
  refine ⟨pod.Spec.InitContainers ++ pod.Spec.Containers,
    List.replicate pod.Spec.InitContainers.length "init container"
      ++ List.replicate pod.Spec.Containers.length "container", ?_, rfl, ?_, ?_⟩
  · simp only [getContainerList, foldl_append_label, List.nil_append, List.append_assoc]
  · simp
  · intro i
    exact getElem?_two_labels _ _ _ _ i

end SubMemberOrder

/-! ## C13: resize events -/

section Resize

/-- C13 fails at the Content level: `containerLogModel.Update` has no
`case tea.WindowSizeMsg`.  In the session `resizeWhileLoading` the resize to
120 by 40 reaches the Content state and the package variables stay at 80 by 24;
the log that arrives next gets a viewport of 80 by 24.  The same resize handled
by the SubMember state underneath does set the package variables. -/
theorem resize_content_divergence :
    run plainViewport Globals.initial initialModel resizeWhileLoading
        = .ok (loadingLog, { clientWidth := 80, clientHeight := 24 })
      ∧ Model.Update plainViewport { clientWidth := 80, clientHeight := 24 } loadingLog
            (.WindowSizeMsg 120 40)
          = .ok ⟨loadingLog, none, { clientWidth := 80, clientHeight := 24 }⟩
      ∧ run plainViewport Globals.initial initialModel
            (resizeWhileLoading ++ [.containerLogMsg "log"])
          = .ok (loadedLog, { clientWidth := 80, clientHeight := 24 })
      ∧ Model.Update plainViewport { clientWidth := 80, clientHeight := 24 } loadingParent
            (.WindowSizeMsg 120 40)
          = .ok ⟨loadingParent, none, { clientWidth := 120, clientHeight := 40 }⟩ := by
  refine ⟨?_, ?_, ?_, ?_⟩ <;> rfl

end Resize

/-! ## C14: quit -/

section Quit

variable {V C : Type}

/-- C14 (quit determinism).  For every state of any of the four levels, a
ready Content level included, handling the quit key (`q` or `ctrl+c`) returns
the state unchanged (the viewport has not been handed the key) together with
the command `tea.Quit`; nothing else changes. -/
theorem quit_determinism (vp : ViewportApi V C) (g : Globals) (s : Model V) (l : Level)
    (hl : s.level = some l) (key : String) (hk : key = "q" ∨ key = "ctrl+c") :
    Model.Update vp g s (.KeyMsg key) = .ok ⟨s, some .Quit, g⟩
      ∧ (Cmd.Quit : Cmd C).run = .ok .Quit := by
  refine ⟨?_, rfl⟩
  rcases hk with rfl | rfl <;> cases s <;>
    simp_all [Model.level, Model.Update, model.Update, podModel.Update, containerModel.Update,
      containerLogModel.Update]

/-- C14 at a ready Content state over a view that counts the events it is
handed: the count stays 0. -/
theorem quit_determinism_witness :
    Model.Update countingViewport Globals.initial readyLog (.KeyMsg "q")
        = .ok ⟨readyLog, some .Quit, Globals.initial⟩
      ∧ (Cmd.Quit : Cmd Unit).run = .ok .Quit :=
  quit_determinism countingViewport Globals.initial readyLog .Content rfl "q" (Or.inl rfl)

end Quit

/-! ## C15: the Content level becomes ready -/

section ContentReady

variable {V C : Type}

/-- C15 (Content becomes ready on any content message).  For every Content
state, ready or not, and every content message with text `t`, handling it
returns a Content state with `ready = true` and the same back-reference, whose
view was created by `viewport.New` with the package variables `clientWidth`,
`clientHeight` of that moment, given the content `t` and then, as for every
message of a ready Content level, handed the message itself; the command is the
one the view returns.  The back key then still returns the back-reference.
The two failure paths of `getContainerLogs` produce content messages with the
texts `"Error in opening log stream"` and `"Error copying logs from stream"`,
a successful one the copied text.  A Content state that is not ready renders
`"Retrieving logs ..."`. -/
theorem content_becomes_ready (vp : ViewportApi V C) (g : Globals) (m : containerLogModel V)
    (f : Model V) (t : String) :
    Model.Update vp g (.containerLogModel m f) (.containerLogMsg t)
        = .ok ⟨.containerLogModel
                 { viewport := (vp.Update (vp.SetContent (vp.New g.clientWidth g.clientHeight) t)
                                  (.containerLogMsg t)).1,
                   ready := true } f,
               (vp.Update (vp.SetContent (vp.New g.clientWidth g.clientHeight) t)
                  (.containerLogMsg t)).2.map Cmd.viewport,
               g⟩
      ∧ (∀ (v : V) (g' : Globals),
          Model.Update vp g' (.containerLogModel { viewport := v, ready := true } f)
              (.KeyMsg "h") = .ok ⟨f, none, g'⟩)
      ∧ (∀ namespace_ pod container : String,
          getContainerLogs (fun _ _ _ => .streamError) namespace_ pod container
              = .containerLogMsg "Error in opening log stream"
            ∧ getContainerLogs (fun _ _ _ => .copyError) namespace_ pod container
              = .containerLogMsg "Error copying logs from stream"
            ∧ ∀ str : String,
                getContainerLogs (fun _ _ _ => .copied str) namespace_ pod container
                  = .containerLogMsg str)
      ∧ (∀ v : V, containerLogModel.View vp { viewport := v, ready := false }
          = "Retrieving logs ...") := by
  refine ⟨?_, ?_, ?_, ?_⟩
  · simp [Model.Update, containerLogModel.Update, containerLogModel.relay]
  · intro v g'
    simp [Model.Update, containerLogModel.Update]
  · intro _ _ _
    exact ⟨rfl, rfl, fun _ => rfl⟩
  · intro v
    simp [containerLogModel.View]

end ContentReady

/-! ## C17 and C18: cursor steps and the back key -/

section Steps

variable {V C : Type}

/-- C17 (cursor step).  For every Collection, Member or SubMember state with a
non-empty list of length `n` and cursor `c` in `[0, n-1]`, handling an up key
(`up`, `k`) returns the state with cursor `max(c-1, 0)` and handling a down key
(`down`, `j`) returns the state with cursor `min(c+1, n-1)`; nothing but the
cursor changes and no command is returned.  With an empty list and cursor 0
both kinds of key return the state unchanged and no command. -/
theorem cursor_step (vp : ViewportApi V C) (g : Globals) (s : Model V)
    (hl : s.isList = true) (key : String) :
    (0 < s.len → 0 ≤ s.cursor → s.cursor ≤ (s.len : Int) - 1 →
        ((key = "up" ∨ key = "k") →
            Model.Update vp g s (.KeyMsg key)
              = .ok ⟨s.setCursor (max (s.cursor - 1) 0), none, g⟩)
        ∧ ((key = "down" ∨ key = "j") →
            Model.Update vp g s (.KeyMsg key)
              = .ok ⟨s.setCursor (min (s.cursor + 1) ((s.len : Int) - 1)), none, g⟩))
    ∧ (s.len = 0 → s.cursor = 0 →
        (key = "up" ∨ key = "k" ∨ key = "down" ∨ key = "j") →
          Model.Update vp g s (.KeyMsg key) = .ok ⟨s, none, g⟩) := by
  refine ⟨fun hn h0 h1 => ⟨fun hk => ?_, fun hk => ?_⟩, fun hn hc hk => ?_⟩
  · have hc : (if s.cursor > 0 then s.cursor - 1 else s.cursor) = max (s.cursor - 1) 0 := by
      rw [max_def]
      split_ifs <;> omega
    rw [update_up vp g s hl key hk, hc]
  · have hc : (if s.cursor < (s.len : Int) - 1 then s.cursor + 1 else s.cursor)
        = min (s.cursor + 1) ((s.len : Int) - 1) := by
      rw [min_def]
      split_ifs <;> omega
    rw [update_down vp g s hl key hk, hc]
  · have hs : ∀ c : Int, c = s.cursor →
        (Except.ok ⟨s.setCursor c, none, g⟩ : Except Panic (Step V C)) = .ok ⟨s, none, g⟩ := by
      intro c hc'
      rw [hc', setCursor_cursor]
    rcases hk with hk | hk | hk | hk
    · rw [update_up vp g s hl key (Or.inl hk)]
      exact hs _ (by split <;> omega)
    · rw [update_up vp g s hl key (Or.inr hk)]
      exact hs _ (by split <;> omega)
    · rw [update_down vp g s hl key (Or.inl hk)]
      exact hs _ (by split <;> omega)
    · rw [update_down vp g s hl key (Or.inr hk)]
      exact hs _ (by split <;> omega)

/-- C17 at a concrete input: on the pods `[p1, p2]` with cursor 1 the key `k`
moves the cursor to 0. -/
theorem cursor_step_witness :
    Model.Update plainViewport Globals.initial memberP1P2 (.KeyMsg "k")
      = .ok ⟨memberP1P2.setCursor (max (memberP1P2.cursor - 1) 0), none, Globals.initial⟩ :=
  ((cursor_step plainViewport Globals.initial memberP1P2 rfl "k").1
    (by decide) (by decide) (by decide)).1 (Or.inr rfl)

/-- C18 (root ignores back).  For every Collection state handling the key `h`
returns the state unchanged and no command; for every Member, SubMember and
Content state (ready or not) handling `h` returns exactly the stored
back-reference and no command. -/
theorem back_key (vp : ViewportApi V C) (g : Globals) :
    (∀ m : model, Model.Update vp g (.model m) (.KeyMsg "h") = .ok ⟨.model m, none, g⟩)
    ∧ (∀ (m : podModel) (f : Model V),
        Model.Update vp g (.podModel m f) (.KeyMsg "h") = .ok ⟨f, none, g⟩)
    ∧ (∀ (m : containerModel) (f : Model V),
        Model.Update vp g (.containerModel m f) (.KeyMsg "h") = .ok ⟨f, none, g⟩)
    ∧ (∀ (m : containerLogModel V) (f : Model V),
        Model.Update vp g (.containerLogModel m f) (.KeyMsg "h") = .ok ⟨f, none, g⟩) := by
  refine ⟨?_, ?_, ?_, ?_⟩ <;> intros <;>
    simp [Model.Update, model.Update, podModel.Update, containerModel.Update,
      containerLogModel.Update]

end Steps

/-! ## C16, C19, C20: what every reachable state satisfies -/

section Reachable

variable {V C : Type}

/-- A step without a command has nothing to execute. -/
theorem cmdRuns_none (next : Model V) (g : Globals) :
    (⟨next, none, g⟩ : Step V C).cmdRuns := by
  intro cmd h
  cases h

/-- A step whose command executes to a call. -/
theorem cmdRuns_some (next : Model V) (g : Globals) (cmd : Cmd C) (call : Call C)
    (h : cmd.run = .ok call) : (⟨next, some cmd, g⟩ : Step V C).cmdRuns := by
  intro cmd' h'
  cases h'
  exact ⟨call, h⟩

/-- With a cursor that is not negative, a false select guard means the index
expression yields the element at the cursor. -/
theorem index_ok_of_guard {α : Type} (xs : List α) (c : Int) (h0 : 0 ≤ c)
    (hg : ¬ ((xs.length : Int) - 1 < c)) :
    ∃ x, index xs c = .ok x ∧ xs[c.toNat]? = some x := by
  have h1 : c < xs.length := by omega
  obtain ⟨h, hi⟩ := index_eq_getElem xs c h0 h1
  exact ⟨_, hi, List.getElem?_eq_getElem h⟩

/-- One event, whatever it is, handled in a state whose chain is typed, whose
cursors are not negative and whose keys agree, never panics, leads to such a
state again and returns a command that executes without panic. -/
theorem update_preserves_chain (vp : ViewportApi V C) (g : Globals) (s : Model V)
    (ht : s.typed) (hn : s.cursorsNonneg) (hk : s.keysAgree) (e : Msg) :
    ∃ r, Model.Update vp g s e = .ok r ∧ r.next.typed ∧ r.next.cursorsNonneg
      ∧ r.next.keysAgree ∧ r.cmdRuns := by
  cases s with
  | nil => exact ht.elim
  | model m =>
      have hm : 0 ≤ m.cursor := hn
      cases e with
      | KeyMsg key =>
          simp only [Model.Update, model.Update]
          split_ifs
          all_goals first
            | exact ⟨_, rfl, trivial, hn, trivial, cmdRuns_none _ _⟩
            | exact ⟨_, rfl, trivial, hn, trivial, cmdRuns_some _ _ _ _ rfl⟩
            | exact ⟨_, rfl, trivial, le_refl (0 : Int), trivial, cmdRuns_some _ _ _ _ rfl⟩
            | exact ⟨_, rfl, trivial, (by show (0 : Int) ≤ _; dsimp only; omega), trivial,
                cmdRuns_none _ _⟩
            | (obtain ⟨x, hx, hx'⟩ := index_ok_of_guard m.choices m.cursor hm (by assumption)
               simp only [hx, bind, Except.bind]
               exact ⟨_, rfl, ⟨rfl, trivial⟩, ⟨le_refl (0 : Int), hm⟩,
                 ⟨by simp [Model.itemName?, hm, hx'], trivial⟩, cmdRuns_some _ _ _ _ rfl⟩)
      | _ => exact ⟨_, rfl, trivial, hn, trivial, cmdRuns_none _ _⟩
  | podModel m f =>
      have hm : 0 ≤ m.cursor := hn.1
      have hfn : f.cursorsNonneg := hn.2
      cases e with
      | KeyMsg key =>
          simp only [Model.Update, podModel.Update]
          split_ifs
          all_goals first
            | exact ⟨_, rfl, ht, hn, hk, cmdRuns_none _ _⟩
            | exact ⟨_, rfl, ht, hn, hk, cmdRuns_some _ _ _ _ rfl⟩
            | exact ⟨_, rfl, ht.2, hfn, hk.2, cmdRuns_none _ _⟩
            | exact ⟨_, rfl, ht, ⟨le_refl (0 : Int), hfn⟩, hk, cmdRuns_some _ _ _ _ rfl⟩
            | exact ⟨_, rfl, ht, ⟨(by show (0 : Int) ≤ _; dsimp only; omega), hfn⟩, hk,
                cmdRuns_none _ _⟩
            | (obtain ⟨x, hx, hx'⟩ := index_ok_of_guard m.choices m.cursor hm (by assumption)
               simp only [hx, bind, Except.bind]
               exact ⟨_, rfl, ⟨rfl, ht⟩, ⟨le_refl (0 : Int), hn⟩,
                 ⟨rfl, by simp [Model.itemName?, hm, hx'], hk⟩,
                 cmdRuns_some _ _ _ (.getContainerList x) (by simp [Cmd.run, hx, bind,
                   Except.bind])⟩)
      | podListMsg items => exact ⟨_, rfl, ht, ⟨hm, hfn⟩, hk, cmdRuns_none _ _⟩
      | _ => exact ⟨_, rfl, ht, hn, hk, cmdRuns_none _ _⟩
  | containerModel m f =>
      have hm : 0 ≤ m.cursor := hn.1
      have hfn : f.cursorsNonneg := hn.2
      cases e with
      | KeyMsg key =>
          simp only [Model.Update, containerModel.Update]
          split_ifs
          all_goals first
            | exact ⟨_, rfl, ht, hn, hk, cmdRuns_none _ _⟩
            | exact ⟨_, rfl, ht, hn, hk, cmdRuns_some _ _ _ _ rfl⟩
            | exact ⟨_, rfl, ht.2, hfn, hk.2.2, cmdRuns_none _ _⟩
            | exact ⟨_, rfl, ht, ⟨(by show (0 : Int) ≤ _; dsimp only; omega), hfn⟩, hk,
                cmdRuns_none _ _⟩
            | (obtain ⟨x, hx, _⟩ := index_ok_of_guard m.choices m.cursor hm (by assumption)
               exact ⟨_, rfl, ⟨rfl, ht⟩, hn, hk,
                 cmdRuns_some _ _ _ (.getContainerLogs m.namespace_ m.pod x.Name)
                   (by simp [Cmd.run, hx, bind, Except.bind])⟩)
      | containerListMsg containers types =>
          exact ⟨_, rfl, ht, ⟨hm, hfn⟩, hk, cmdRuns_none _ _⟩
      | _ => exact ⟨_, rfl, ht, hn, hk, cmdRuns_none _ _⟩
  | containerLogModel m f =>
      have hrelay : ∀ (m' : containerLogModel V) (msg : Msg),
          (containerLogModel.relay vp g m' f msg).next.typed
            ∧ (containerLogModel.relay vp g m' f msg).next.cursorsNonneg
            ∧ (containerLogModel.relay vp g m' f msg).next.keysAgree
            ∧ (containerLogModel.relay vp g m' f msg).cmdRuns := by
        intro m' msg
        unfold containerLogModel.relay
        split
        · refine ⟨ht, hn, hk, ?_⟩
          intro cmd hc
          simp only [Option.map_eq_some'] at hc
          obtain ⟨c, _, rfl⟩ := hc
          exact ⟨.viewport c, rfl⟩
        · exact ⟨ht, hn, hk, cmdRuns_none _ _⟩
      cases e with
      | KeyMsg key =>
          simp only [Model.Update, containerLogModel.Update]
          split_ifs
          · exact ⟨_, rfl, ht, hn, hk, cmdRuns_some _ _ _ _ rfl⟩
          · exact ⟨_, rfl, ht.2, hn, hk, cmdRuns_none _ _⟩
          · exact ⟨_, rfl, hrelay _ _⟩
      | _ => exact ⟨_, rfl, hrelay _ _⟩

/-- Any sequence of events from a state whose chain is typed, whose cursors
are not negative and whose keys agree runs without panic and ends in such a
state. -/
theorem run_preserves_chain (vp : ViewportApi V C) (evs : List Msg) (g : Globals)
    (s : Model V) (ht : s.typed) (hn : s.cursorsNonneg) (hk : s.keysAgree) :
    ∃ s' g', run vp g s evs = .ok (s', g') ∧ s'.typed ∧ s'.cursorsNonneg ∧ s'.keysAgree := by
  induction evs generalizing g s with
  | nil => exact ⟨s, g, rfl, ht, hn, hk⟩
  | cons e evs ih =>
      obtain ⟨r, hr, h1, h2, h3, _⟩ := update_preserves_chain vp g s ht hn hk e
      obtain ⟨s', g', hrun, h⟩ := ih r.globals r.next h1 h2 h3
      exact ⟨s', g', by simp only [run, hr]; exact hrun, h⟩

/-- The depth of a typed chain is the depth of its level. -/
theorem depth_of_typed (s : Model V) (ht : s.typed) :
    s.level.map Level.depth = some s.depth := by
  induction s with
  | nil => exact ht.elim
  | model m => rfl
  | podModel m f ih =>
      have h := ih ht.2
      rw [ht.1] at h
      simp only [Option.map_some', Option.some.injEq] at h
      simp [Model.level, Model.depth, ← h, Level.depth]
  | containerModel m f ih =>
      have h := ih ht.2
      rw [ht.1] at h
      simp only [Option.map_some', Option.some.injEq] at h
      simp [Model.level, Model.depth, ← h, Level.depth]
  | containerLogModel m f ih =>
      have h := ih ht.2
      rw [ht.1] at h
      simp only [Option.map_some', Option.some.injEq] at h
      simp [Model.level, Model.depth, ← h, Level.depth]

/-- The initial root state starts every invariant of the chain. -/
theorem initial_chain :
    (initialModel : Model V).typed ∧ (initialModel : Model V).cursorsNonneg
      ∧ (initialModel : Model V).keysAgree :=
  ⟨trivial, le_refl (0 : Int), trivial⟩

/-- An event that is not select, back or quit keeps a Member state a Member
state with the same collection key and back-reference. -/
theorem member_keys_kept (vp : ViewportApi V C) (g : Globals) (m : podModel) (f : Model V)
    (e : Msg) (he : e.passive) :
    ∃ (m' : podModel) (c : Option (Cmd C)) (g' : Globals),
      Model.Update vp g (.podModel m f) e = .ok ⟨.podModel m' f, c, g'⟩
        ∧ m'.namespace_ = m.namespace_ := by
  cases e <;> simp only [Model.Update, podModel.Update, Msg.passive] at he ⊢ <;>
    first
      | exact ⟨_, _, _, rfl, rfl⟩
      | (obtain ⟨h1, h2, h3, h4, h5⟩ := he
         simp only [h1, h2, h3, h4, h5, or_self, if_false]
         split_ifs <;> exact ⟨_, _, _, rfl, rfl⟩)

/-- An event that is not select, back or quit keeps a SubMember state a
SubMember state with the same keys and back-reference. -/
theorem submember_keys_kept (vp : ViewportApi V C) (g : Globals) (m : containerModel)
    (f : Model V) (e : Msg) (he : e.passive) :
    ∃ (m' : containerModel) (c : Option (Cmd C)) (g' : Globals),
      Model.Update vp g (.containerModel m f) e = .ok ⟨.containerModel m' f, c, g'⟩
        ∧ m'.namespace_ = m.namespace_ ∧ m'.pod = m.pod := by
  cases e <;> simp only [Model.Update, containerModel.Update, Msg.passive] at he ⊢ <;>
    first
      | exact ⟨_, _, _, rfl, rfl, rfl⟩
      | (obtain ⟨h1, h2, h3, h4, h5⟩ := he
         simp only [h1, h2, h3, h4, h5, or_self, if_false]
         split_ifs <;> exact ⟨_, _, _, rfl, rfl, rfl⟩)

/-- C16 (back-reference chain shape).  Every finite sequence of events from
the initial root state runs without panic and ends in a state whose
back-reference chain is typed by level: a Collection state has no
back-reference, the back-reference of a Member state is a Collection state, of
a SubMember state a Member state, of a Content state a SubMember state, and
so on down the chain.  The chain has as many links as the level is deep (0, 1,
2, 3), so never more than 3. -/
theorem chain_shape (vp : ViewportApi V C) (evs : List Msg) :
    ∃ s g, run vp Globals.initial initialModel evs = .ok (s, g)
      ∧ s.typed ∧ s.level.map Level.depth = some s.depth ∧ s.depth ≤ 3 := by
  obtain ⟨s, g, hrun, ht, _, _⟩ :=
    run_preserves_chain vp evs Globals.initial initialModel initial_chain.1 initial_chain.2.1
      initial_chain.2.2
  have hd := depth_of_typed s ht
  refine ⟨s, g, hrun, ht, hd, ?_⟩
  cases hl : s.level with
  | none => simp [hl] at hd
  | some l =>
      rw [hl] at hd
      simp only [Option.map_some', Option.some.injEq] at hd
      rw [← hd]
      cases l <;> simp [Level.depth]

/-- C19 (drill never indexes out of bounds).  Every finite sequence of key
presses, resizes and completion messages with arbitrary payloads from the
initial root state runs without panic and ends in a state in which the cursor
of every list level on the chain is at least 0 and in which the select guard
`len(m.choices)-1 < m.cursor` holds or the cursor is a valid index; from that
state every further event, the select key included, is handled without panic,
and the command it returns executes without panic: no index expression
`m.choices[m.cursor]`, in a transition or in a fetch closure, is ever out of
range. -/
theorem drill_in_bounds (vp : ViewportApi V C) (evs : List Msg) :
    ∃ s g, run vp Globals.initial initialModel evs = .ok (s, g)
      ∧ s.cursorsNonneg
      ∧ ((s.len : Int) - 1 < s.cursor ∨ (0 ≤ s.cursor ∧ s.cursor < s.len))
      ∧ ∀ e : Msg, ∃ r, Model.Update vp g s e = .ok r ∧ r.cmdRuns := by
  obtain ⟨s, g, hrun, ht, hn, hk⟩ :=
    run_preserves_chain vp evs Globals.initial initialModel initial_chain.1 initial_chain.2.1
      initial_chain.2.2
  refine ⟨s, g, hrun, hn, ?_, ?_⟩
  · have h0 : 0 ≤ s.cursor := by
      cases s with
      | nil => exact le_refl _
      | model m => exact hn
      | podModel m f => exact hn.1
      | containerModel m f => exact hn.1
      | containerLogModel m f => exact le_refl _
    omega
  · intro e
    obtain ⟨r, hr, _, _, _, hc⟩ := update_preserves_chain vp g s ht hn hk e
    exact ⟨r, hr, hc⟩

/-- C20 (key propagation along the back chain).  Every finite sequence of
events from the initial root state runs without panic and ends in a state
whose chain is typed by level and on which the keys agree: the collection key
of a Member state is the name of the item at the cursor of its back-referenced
Collection state; the collection key of a SubMember state is the collection key
of its back-referenced Member state, and its member key is the name of the item
at the cursor of that Member state; and so on down the chain.  An event other
than select, back and quit (a cursor move, a refresh, a completion message, a
resize, any other key or message) handled by a Member or SubMember state
returns a state of the same level with the same keys and back-reference. -/
theorem key_propagation (vp : ViewportApi V C) :
    (∀ evs : List Msg, ∃ s g, run vp Globals.initial initialModel evs = .ok (s, g)
        ∧ s.typed ∧ s.keysAgree)
    ∧ (∀ (g : Globals) (m : podModel) (f : Model V) (e : Msg), e.passive →
        ∃ (m' : podModel) (c : Option (Cmd C)) (g' : Globals),
          Model.Update vp g (.podModel m f) e = .ok ⟨.podModel m' f, c, g'⟩
            ∧ m'.namespace_ = m.namespace_)
    ∧ (∀ (g : Globals) (m : containerModel) (f : Model V) (e : Msg), e.passive →
        ∃ (m' : containerModel) (c : Option (Cmd C)) (g' : Globals),
          Model.Update vp g (.containerModel m f) e = .ok ⟨.containerModel m' f, c, g'⟩
            ∧ m'.namespace_ = m.namespace_ ∧ m'.pod = m.pod) := by
  refine ⟨fun evs => ?_, member_keys_kept vp, submember_keys_kept vp⟩
  obtain ⟨s, g, hrun, ht, _, hk⟩ :=
    run_preserves_chain vp evs Globals.initial initialModel initial_chain.1 initial_chain.2.1
      initial_chain.2.2
  exact ⟨s, g, hrun, ht, hk⟩

/-- C20 at a concrete input: the refresh key on the Member state of namespace
`b` keeps the collection key `b`. -/
theorem key_propagation_witness :
    ∃ (m' : podModel) (c : Option (Cmd Unit)) (g' : Globals),
      Model.Update plainViewport Globals.initial memberP1P2 (.KeyMsg "r")
          = .ok ⟨.podModel m' collectionABC, c, g'⟩
        ∧ m'.namespace_ = "b" :=
  (key_propagation plainViewport).2.1 Globals.initial
    { choices := [barePod "p1", barePod "p2"], cursor := 1, populated := true,
      namespace_ := "b" } collectionABC (.KeyMsg "r") (by decide)

end Reachable

/-! ## C4: no-op drill -/

section NoOpDrillReachable

variable {V C : Type}

/-- The cursor of a state whose chain has no negative cursor is not
negative. -/
theorem cursor_nonneg_of_chain (s : Model V) (hn : s.cursorsNonneg) : 0 ≤ s.cursor := by
  cases s with
  | nil => exact le_refl _
  | model m => exact hn
  | podModel m f => exact hn.1
  | containerModel m f => exact hn.1
  | containerLogModel m f => exact le_refl _

/-- C4 (no-op drill).  Let `s` be a Collection, Member or SubMember state
the program can be in: the state the event loop has reached from the initial
root state `model{}` after some finite sequence of events.  If the list of `s`
is empty, or the cursor of `s` is greater than `len-1`, handling the select key
(`l` or `enter`) returns `s` unchanged and no command, and leaves the package
variables alone. -/
theorem noop_drill (vp : ViewportApi V C) (evs : List Msg) (s : Model V) (g : Globals)
    (hrun : run vp Globals.initial initialModel evs = .ok (s, g))
    (hl : s.isList = true)
    (h : s.len = 0 ∨ (s.len : Int) - 1 < s.cursor)
    (sel : String) (hsel : sel = "l" ∨ sel = "enter") (g' : Globals) :
    Model.Update vp g' s (.KeyMsg sel) = .ok ⟨s, none, g'⟩ := by
  obtain ⟨s', g'', hrun', _, hn, _⟩ :=
    run_preserves_chain vp evs Globals.initial initialModel initial_chain.1 initial_chain.2.1
      initial_chain.2.2
  rw [hrun] at hrun'
  simp only [Except.ok.injEq, Prod.mk.injEq] at hrun'
  obtain ⟨rfl, _⟩ := hrun'
  have h0 : 0 ≤ s.cursor := cursor_nonneg_of_chain s hn
  exact update_select_guarded vp g' s hl (by omega) sel hsel

/-- C4 at a concrete input: the Member state the refresh race ends in, one
pod with the cursor at 2, past the end of the list. -/
theorem noop_drill_witness :
    Model.Update plainViewport Globals.initial refreshRaceEnd (.KeyMsg "l")
      = .ok ⟨refreshRaceEnd, none, Globals.initial⟩ :=
  noop_drill plainViewport refreshRace refreshRaceEnd Globals.initial rfl rfl
    (Or.inr (by decide)) "l" (Or.inl rfl) Globals.initial

end NoOpDrillReachable

end K8sExplorer
